import Mathlib

/-!
Verification of the streaming TLS/SSL ClientHello parser and fingerprint
extractor of mod_sslhaf (the newer revision, `src/mod_sslhaf.c`).

The development shallowly embeds the parsing core:
  * `c2x` / `bytes2hex`      — the hex codec (lines 230-274 of the source);
  * `decode_packet_v2`       — the SSLv2 ClientHello decoder (lines 292-411);
  * `decode_packet_v3_handshake` — the SSLv3+/TLS ClientHello decoder
    (lines 416-702), with every memory read that is not protected by a
    preceding length guard performed through the bounds-checked reader `rd`,
    so that an out-of-bounds access of the C code surfaces as the distinct
    error value `V3Err.oob` instead of silently producing data;
  * `decode_bucket` / `feed` — the per-chunk record reassembly state machine
    (lines 720-938) together with the input filter's rule of forcing the
    GOAWAY state whenever `decode_bucket` returns a non-positive code
    (lines 986-998);
  * `str_to_dec`, `sslhaf_normalize`, `publish_ec_point`, `publish_curves` — the
    GREASE-filtering decimal fingerprint normalisation performed by
    `sslhaf_post_request` (lines 1026-1166).

Byte buffers are `List Nat` whose elements are byte values; machine
arithmetic that can wrap (the `apr_size_t` subtraction in the SSLv2 header
path) is modelled with an explicit modulus `SIZE_MOD = 2^64`.
-/

instance {ε α : Type} [DecidableEq ε] [DecidableEq α] : DecidableEq (Except ε α) := fun x y =>
  match x, y with
  | .error a, .error b =>
      if h : a = b then .isTrue (by rw [h]) else .isFalse (fun hh => by cases hh; exact h rfl)
  | .error _, .ok _ => .isFalse (fun h => by cases h)
  | .ok _, .error _ => .isFalse (fun h => by cases h)
  | .ok a, .ok b =>
      if h : a = b then .isTrue (by rw [h]) else .isFalse (fun hh => by cases hh; exact h rfl)

/-- The hex digit table `"0123456789abcdef"` of `bytes2hex`/`c2x`. -/
def b2hex : List Char := "0123456789abcdef".toList

/-- `c2x` (source lines 266-274): render one byte (`what & 0xff`) as two
lowercase hex characters. -/
def c2x (what : Nat) : List Char :=
  let w := what % 256
  [b2hex.getD (w / 16) 'x', b2hex.getD (w % 16) 'x']

/-- `bytes2hex` (source lines 230-247): every byte as two lowercase hex
digits, concatenated. -/
def bytes2hex (data : List Nat) : List Char :=
  (data.map c2x).flatten

/-- Join a list of character strings with a single separator character, the
way the decoders' token loops emit a separator before every token except the
first. -/
def joinSep (sep : Char) : List (List Char) → List Char
  | [] => []
  | [t] => t
  | t :: t2 :: ts => t ++ sep :: joinSep sep (t2 :: ts)

/-- Comma-joined token list, as built by the suite/compression/extension
loops of the decoders. -/
def commaSep (ts : List String) : String :=
  String.mk (joinSep ',' (ts.map String.toList))

/-! ## HelloDecoderV2: `decode_packet_v2` (source lines 292-411) -/

/-- The result fields of `sslhaf_cfg_t` populated by `decode_packet_v2`.
(The raw pointer `cfg->suites` into the record buffer is represented by its
only observable use, the textual list `tsuites`.) -/
structure V2Result where
  client_hello : String
  slen : Nat
  thandshake : String
  tprotocol : String
  tsuites : String
deriving DecidableEq, Repr

/-- One SSLv2 suite token (source lines 382-404): a 3-byte triplet rendered
with leading-zero-byte suppression — `b0,b1` are emitted only while nonzero
prefixes last, `b2` always. -/
def v2token (b0 b1 b2 : Nat) : String :=
  String.mk ((if b0 ≠ 0 then c2x b0 ++ c2x b1 else if b1 ≠ 0 then c2x b1 else []) ++ c2x b2)

/-- The SSLv2 suite-extraction loop: `count` triplets read from `buf`
starting at index `i`.  All reads are in bounds because the caller has
checked `cslen ≤ buf.length - 6` and `3 * count ≤ cslen`. -/
def v2triplets (buf : List Nat) : Nat → Nat → List String
  | 0, _ => []
  | n + 1, i =>
      v2token (buf.getD i 0) (buf.getD (i + 1) 0) (buf.getD (i + 2) 0) ::
        v2triplets buf n (i + 3)

/-- `decode_packet_v2` (source lines 292-411).  `buf` is the fully
reassembled SSLv2 body (`cfg->buf`, of length `cfg->buf_len`); the error
values are the source's return codes (`-1`: fewer than 6 header bytes,
`-2`: declared cipher-spec length exceeds the remaining body).  Allocation
failures (`-1`/`-3` after a NULL `apr_pcalloc`) are not modelled. -/
def decode_packet_v2 (hello_version protocol_high protocol_low : Nat) (buf : List Nat) :
    Except Int V2Result :=
  let client_hello := String.mk
    (c2x 0x80 ++ c2x (buf.length + 3) ++ c2x 1 ++
      (if protocol_high = 2 ∧ protocol_low = 0 then
        c2x protocol_low ++ c2x protocol_high
      else
        c2x protocol_high ++ c2x protocol_low) ++
      bytes2hex buf)
  if buf.length < 6 then .error (-1)
  else
    let cslen := buf.getD 0 0 * 256 + buf.getD 1 0
    if buf.length - 6 < cslen then .error (-2)
    else
      let count := cslen / 3
      .ok { client_hello := client_hello,
            slen := count,
            thandshake := toString hello_version,
            tprotocol := toString protocol_high ++ "." ++ toString protocol_low,
            tsuites := commaSep (v2triplets buf count 6) }

/-! ## HelloDecoderV3: `decode_packet_v3_handshake` (source lines 416-702) -/

/-- Failure values of the SSLv3+/TLS decoder.  `rc n` is the source's
return code `n` (a clean error return); `oob` marks a memory read past the
end of the record buffer — undefined behavior in the C code, which performs
that read without any check. -/
inductive V3Err where
  | rc : Int → V3Err
  | oob : V3Err
deriving DecidableEq, Repr

/-- Bounds-checked byte read: the value `buf[i]` when `i` is inside the
record buffer, `V3Err.oob` otherwise (the C code would read out of
bounds). -/
def rd (buf : List Nat) (i : Nat) : Except V3Err Nat :=
  if h : i < buf.length then .ok buf[i] else .error .oob

/-- The result fields of `sslhaf_cfg_t` populated by
`decode_packet_v3_handshake`.  Fields that stay at their `apr_pcalloc`
defaults when the corresponding wire element is absent are `Option`s
(`none` models a NULL pointer / untouched field). -/
structure V3Hello where
  client_hello : String
  protocol_high : Nat
  protocol_low : Nat
  slen : Nat
  thandshake : String
  tprotocol : String
  tsuites : String
  compression_len : Nat
  compression_methods : String
  extensions_len : Nat
  extensions : Option String
  curves : Option String
  curve_len : Nat
  ec_point : Option String
deriving DecidableEq, Repr

/-- One SSLv3+ suite token (source lines 541-555): the high byte is emitted
only when nonzero, the low byte always. -/
def v3token (b0 b1 : Nat) : String :=
  String.mk ((if b0 ≠ 0 then c2x b0 else []) ++ c2x b1)

/-- The SSLv3+ suite-extraction loop: `count` 2-byte suites from index `p`.
In bounds by the preceding `mylen < cslen * 2` guard (return code `-7`). -/
def v3suites (buf : List Nat) : Nat → Nat → List String
  | 0, _ => []
  | n + 1, p => v3token (buf.getD p 0) (buf.getD (p + 1) 0) :: v3suites buf n (p + 2)

/-- The compression-method loop (source lines 577-585): `count` single
bytes from index `p`, each rendered as a full 2-hex-char token.  In bounds
by the `mylen < clen` guard (return code `-9`). -/
def v3comp (buf : List Nat) : Nat → Nat → List String
  | 0, _ => []
  | n + 1, p => String.mk (c2x (buf.getD p 0)) :: v3comp buf n (p + 1)

/-- The supported-groups inner loop (source lines 657-669): reads pairs of
bytes while the remaining list length is positive — an odd declared length
still reads two bytes in its final iteration, exactly as the C loop does
before its `ec_len > 0` test is re-evaluated.  Returns the group tokens and
the final read position.  No length guard protects these reads. -/
def group_loop (buf : List Nat) : Nat → Nat → Except V3Err (List String × Nat)
  | 0, p => .ok ([], p)
  | 1, p => do
      let a ← rd buf p
      let b ← rd buf (p + 1)
      .ok ([String.mk (c2x a ++ c2x b)], p + 2)
  | n + 2, p => do
      let a ← rd buf p
      let b ← rd buf (p + 1)
      let r ← group_loop buf n (p + 2)
      .ok (String.mk (c2x a ++ c2x b) :: r.1, r.2)

/-- The EC-point-formats inner loop (source lines 680-688): reads single
bytes while the remaining count is positive.  No length guard protects
these reads. -/
def ecp_loop (buf : List Nat) : Nat → Nat → Except V3Err (List String × Nat)
  | 0, p => .ok ([], p)
  | n + 1, p => do
      let a ← rd buf p
      let r ← ecp_loop buf n (p + 1)
      .ok (String.mk (c2x a) :: r.1, r.2)

/-- The extension loop (source lines 617-695).  `p` is the read cursor,
`elen` the signed remaining extension-block length (a C `int`, which the
source drives negative when a declared extension length overshoots the
block).  `acc`/`curves`/`ecp` mirror `cfg->extensions`,`cfg->curves` and
`(cfg->curve_len, cfg->ec_point)`; a later occurrence of extension 10 or
11 overwrites the earlier one, as the C assignments do.  Each iteration
consumes at least 4 of `elen` but only one unit of fuel, so the fuel
`elen.toNat + 1` supplied by the caller can never run out before
`elen ≤ 0`; the fuel-exhaustion branch is unreachable. -/
def ext_loop (buf : List Nat) :
    Nat → Nat → Int → List String → Option String → Option (Nat × String) →
    Except V3Err (List String × Option String × Option (Nat × String))
  | 0, _, _, acc, curves, ecp => .ok (acc, curves, ecp)
  | fuel + 1, p, elen, acc, curves, ecp =>
    if elen ≤ 0 then .ok (acc, curves, ecp)
    else do
      let b1 ← rd buf p
      let b2 ← rd buf (p + 1)
      let l1 ← rd buf (p + 2)
      let l2 ← rd buf (p + 3)
      let tok := String.mk (c2x b1 ++ c2x b2)
      let ext1len := l1 * 256 + l2
      if b1 * 256 + b2 = 10 then
        let e1 ← rd buf (p + 4)
        let e2 ← rd buf (p + 5)
        let gl ← group_loop buf (e1 * 256 + e2) (p + 6)
        ext_loop buf fuel gl.2 (elen - 4 - (ext1len : Int)) (acc ++ [tok])
          (some (commaSep gl.1)) ecp
      else if b1 * 256 + b2 = 11 then
        let c1 ← rd buf (p + 4)
        let el ← ecp_loop buf c1 (p + 5)
        ext_loop buf fuel el.2 (elen - 4 - (ext1len : Int)) (acc ++ [tok])
          curves (some (c1, commaSep el.1))
      else
        ext_loop buf fuel (p + 4 + ext1len) (elen - 4 - (ext1len : Int)) (acc ++ [tok])
          curves ecp

/-- The extensions region of `decode_packet_v3_handshake` (source lines
590-702).  All values decoded so far arrive as parameters (they mirror the
`cfg` fields already assigned); `p` is the read cursor and `mylen` the
remaining declared message length.  An empty remainder is a legal
ClientHello without extensions (source lines 590-594). -/
def v3_exts_stage (client_hello : String) (ph pl slen : Nat)
    (thandshake tprotocol tsuites : String) (compression_len : Nat)
    (compression_methods : String) (buf : List Nat) (p mylen : Nat) :
    Except V3Err (Option V3Hello) :=
  if mylen = 0 then
    .ok (some {
      client_hello := client_hello, protocol_high := ph, protocol_low := pl,
      slen := slen, thandshake := thandshake, tprotocol := tprotocol,
      tsuites := tsuites, compression_len := compression_len,
      compression_methods := compression_methods,
      extensions_len := 0, extensions := none, curves := none,
      curve_len := 0, ec_point := none })
  else if mylen < 2 then .error (.rc (-10))
  else
    let elen := buf.getD p 0 * 256 + buf.getD (p + 1) 0
    if mylen - 2 < elen then .error (.rc (-11))
    else
      match ext_loop buf (elen + 1) (p + 2) (elen : Int) [] none none with
      | .error e => .error e
      | .ok (toks, curves, ecp) =>
        .ok (some {
          client_hello := client_hello, protocol_high := ph, protocol_low := pl,
          slen := slen, thandshake := thandshake, tprotocol := tprotocol,
          tsuites := tsuites, compression_len := compression_len,
          compression_methods := compression_methods,
          extensions_len := toks.length,
          extensions := some (commaSep toks), curves := curves,
          curve_len := (match ecp with | some q => q.1 | none => 0),
          ec_point := (match ecp with | some q => some q.2 | none => none) })

/-- The compression-methods region of `decode_packet_v3_handshake`
(source lines 560-588): a 1-byte method count, then that many 1-byte
methods, each rendered in full. -/
def v3_comp_stage (client_hello : String) (ph pl slen : Nat)
    (thandshake tprotocol tsuites : String) (buf : List Nat) (p mylen : Nat) :
    Except V3Err (Option V3Hello) :=
  if mylen < 1 then .error (.rc (-8))
  else
    let clen := buf.getD p 0
    if mylen - 1 < clen then .error (.rc (-9))
    else
      v3_exts_stage client_hello ph pl slen thandshake tprotocol tsuites
        clen (commaSep (v3comp buf clen (p + 1))) buf (p + 1 + clen)
        (mylen - 1 - clen)

/-- The cipher-suite region of `decode_packet_v3_handshake` (source lines
512-558): a 2-byte byte count halved into the suite count, the suite
tokens, and — exactly where the source computes them (lines 532-533) — the
textual handshake version and the protocol version built from the client
version bytes `ph`/`pl` that overwrote the record-layer values. -/
def v3_cs_stage (hello_version : Nat) (client_hello : String) (ph pl : Nat)
    (buf : List Nat) (p mylen : Nat) : Except V3Err (Option V3Hello) :=
  if mylen < 2 then .error (.rc (-6))
  else
    let cslen := (buf.getD p 0 * 256 + buf.getD (p + 1) 0) / 2
    if mylen - 2 < cslen * 2 then .error (.rc (-7))
    else
      v3_comp_stage client_hello ph pl cslen (toString hello_version)
        (toString ph ++ "." ++ toString pl)
        (commaSep (v3suites buf cslen (p + 2))) buf (p + 2 + cslen * 2)
        (mylen - 2 - cslen * 2)

/-- The body of `decode_packet_v3_handshake` from the session-id length
onward (source lines 497-510).  `client_hello`, `ph`, `pl` are the values
already computed by the head of the function: the reconstructed record hex
and the two client-version bytes read at offsets 4 and 5 (which have
already overwritten `cfg->protocol_high/low`); `mylen` is the remaining
declared message length (`ml - 34`).  The cursor is at index 38 (message
header 4 + version 2 + random 32). -/
def v3_after_version (hello_version : Nat) (client_hello : String) (ph pl : Nat)
    (buf : List Nat) (mylen : Nat) : Except V3Err (Option V3Hello) :=
  if mylen < 1 then .error (.rc (-4))
  else
    let idlen := buf.getD 38 0
    if mylen - 1 < idlen then .error (.rc (-5))
    else
      v3_cs_stage hello_version client_hello ph pl buf (39 + idlen)
        (mylen - 1 - idlen)

/-- `decode_packet_v3_handshake` (source lines 416-702).  `buf` is the fully
reassembled record body (`cfg->buf` of length `cfg->buf_len`);
`protocol_high`/`protocol_low` are the values taken from the outer record
header.  `.ok none` is the source's "return 1 without populating any
field" for a non-ClientHello handshake message; `.ok (some h)` a parsed
ClientHello.  Reads before the extension block are covered by the guards
returning `-3 ... -9` and use plain indexing; the extension block is parsed
through the checked reader `rd` (inside `ext_loop`).  The client version at
offsets 4 and 5 overwrites the record-layer version for all later uses
(the stage functions receive only the inner bytes `ph`, `pl`). -/
def decode_packet_v3_handshake (hello_version protocol_high protocol_low : Nat)
    (buf : List Nat) : Except V3Err (Option V3Hello) :=
  if buf.length < 4 then .error (.rc (-1))
  else if buf.getD 0 0 ≠ 1 then .ok none
  else
    let ml := buf.getD 1 0 * 65536 + buf.getD 2 0 * 256 + buf.getD 3 0
    if ml > buf.length - 4 then .error (.rc (-2))
    else
      let client_hello := String.mk
        (c2x 0x16 ++ c2x protocol_high ++ c2x protocol_low ++
          c2x ((ml + 4) / 256) ++ c2x ((ml + 4) % 256) ++ bytes2hex buf)
      if ml < 34 then .error (.rc (-3))
      else
        v3_after_version hello_version client_hello
          (buf.getD 4 0) (buf.getD 5 0) buf (ml - 34)

/-- `decode_packet_v3` (source lines 707-714): only records whose outer
content type is `PROTOCOL_HANDSHAKE` (22) are decoded; other record types
are ignored ("return 1" with no fields). -/
def decode_packet_v3 (buf_protocol hello_version protocol_high protocol_low : Nat)
    (buf : List Nat) : Except V3Err (Option V3Hello) :=
  if buf_protocol = 22 then
    decode_packet_v3_handshake hello_version protocol_high protocol_low buf
  else .ok none

/-! ## RecordReassembler: `decode_bucket` (source lines 720-938) and the
input filter `sslhaf_in_filter` (source lines 944-1003) -/

/-- The inspection states of `sslhaf_cfg_t.state` (source lines 216-219).
`start` is `STATE_START` (the spec's AwaitingRecord), `buffer` is
`STATE_BUFFER` (BufferingRecord), `reading` is the never-assigned
`STATE_READING`, and `goaway` is `STATE_GOAWAY` (Inert). -/
inductive SState where
  | start
  | buffer
  | reading
  | goaway
deriving DecidableEq, Repr

/-- `apr_size_t` is a 64-bit unsigned integer: 2^64. -/
def SIZE_MOD : Nat := 18446744073709551616

/-- The outcome of the one decode a connection ever performs, stored when
the record completes (the decoded fields of `sslhaf_cfg_t`). -/
inductive DecodeOutcome where
  | v2 : Except Int V2Result → DecodeOutcome
  | v3 : Except V3Err (Option V3Hello) → DecodeOutcome
deriving DecidableEq, Repr

/-- The connection-state fields of `sslhaf_cfg_t` read and written by
`decode_bucket` (source lines 150-212).  `buf = none` models a NULL
`cfg->buf` (no record buffer allocated); `some bs` a buffer whose filled
prefix is `bs` (`cfg->buf_len = bs.length`), with `buf_to_go` bytes still
missing.  `outcome` holds the result of the single decode performed when
the record completes; the textual fields the decoders produce live inside
it.  (The decoders also write `cfg->protocol_high/low`; after a decode the
state is GOAWAY and those copies are never consulted again — the decoded
values are kept in `V3Hello.protocol_high/low` instead.) -/
structure Cfg where
  state : SState
  buf_protocol : Nat
  buf : Option (List Nat)
  buf_to_go : Nat
  hello_version : Nat
  protocol_high : Nat
  protocol_low : Nat
  outcome : Option DecodeOutcome
deriving DecidableEq, Repr

/-- A fresh connection's configuration, `apr_pcalloc`ed to zero
(source lines 1008-1016): `STATE_START`, no buffer, all counters 0. -/
def initCfg : Cfg :=
  { state := .start, buf_protocol := 0, buf := none, buf_to_go := 0,
    hello_version := 0, protocol_high := 0, protocol_low := 0, outcome := none }

/-- The SSLv3+ record-header branch of `decode_bucket` (source lines
753-817).  `b` is the consumed first byte (22, 20 or 23), `rest` the bytes
after it.  `.error (rc, cfg)` is an early `return rc`; `.ok (cfg, rem)`
continues into the buffering branch with the unconsumed bytes `rem`. -/
def v3header (cfg : Cfg) (b : Nat) (rest : List Nat) :
    Except (Int × Cfg) (Cfg × List Nat) :=
  let cfg := { cfg with buf_protocol := b }
  if rest.length < 4 then .error (-1, cfg)
  else
    let cfg := { cfg with hello_version := 3 }
    let cfg :=
      if cfg.protocol_high = 0 then
        { cfg with protocol_high := rest.getD 0 0, protocol_low := rest.getD 1 0 }
      else cfg
    let len := rest.getD 2 0 * 256 + rest.getD 3 0
    if len = 0 ∨ 16384 < len then .error (-1, cfg)
    else .ok ({ cfg with state := .buffer, buf := some [], buf_to_go := len }, rest.drop 4)

/-- The SSLv2 record-header branch of `decode_bucket` (source lines
820-882).  The first byte 128 is consumed; `rest` holds the length byte,
the message-type byte and the two version bytes.  The declared length is
`rest[0] - 3` computed in `apr_size_t` arithmetic, so a length byte below
3 wraps around `SIZE_MOD`. -/
def v2header (cfg : Cfg) (rest : List Nat) :
    Except (Int × Cfg) (Cfg × List Nat) :=
  if rest.length < 4 then .error (-1, cfg)
  else if rest.getD 1 0 ≠ 1 then .error (-1, cfg)
  else
    let cfg := { cfg with hello_version := 2 }
    let cfg :=
      if rest.getD 2 0 = 0 ∧ rest.getD 3 0 = 2 then
        { cfg with protocol_high := rest.getD 3 0, protocol_low := rest.getD 2 0 }
      else
        { cfg with protocol_high := rest.getD 2 0, protocol_low := rest.getD 3 0 }
    let len := (rest.getD 0 0 + (SIZE_MOD - 3)) % SIZE_MOD
    if len = 0 ∨ 16384 < len then .error (-1, cfg)
    else .ok ({ cfg with state := .buffer, buf := some [], buf_to_go := len }, rest.drop 4)

/-- The record-completion half of the `STATE_BUFFER` branch (source lines
892-924): the buffer is filled to exactly `buf_to_go` bytes, the decoder
selected by `hello_version` runs on it, the buffer is freed and the state
becomes `STATE_GOAWAY`; the return code is `-1` when the decoder failed
and `1` otherwise.  Any input bytes beyond the record are discarded (the
source returns from `decode_bucket` here). -/
def bufferComplete (cfg : Cfg) (input : List Nat) : Int × Cfg :=
  let full := cfg.buf.getD [] ++ input.take cfg.buf_to_go
  let outcome :=
    if cfg.hello_version = 3 then
      DecodeOutcome.v3 (decode_packet_v3 cfg.buf_protocol cfg.hello_version
        cfg.protocol_high cfg.protocol_low full)
    else
      DecodeOutcome.v2 (decode_packet_v2 cfg.hello_version
        cfg.protocol_high cfg.protocol_low full)
  let rc : Int :=
    match outcome with
    | .v3 (.error _) => -1
    | .v2 (.error _) => -1
    | _ => 1
  (rc, { cfg with state := .goaway, buf := none, buf_to_go := 0,
                  outcome := some outcome })

/-- The `STATE_BUFFER` branch of `decode_bucket` (source lines 890-934):
complete the record when enough input is available, otherwise append the
whole chunk to the buffer and keep waiting. -/
def bufferStep (cfg : Cfg) (input : List Nat) : Int × Cfg :=
  if cfg.buf_to_go ≤ input.length then bufferComplete cfg input
  else
    (1, { cfg with buf := some (cfg.buf.getD [] ++ input),
                   buf_to_go := cfg.buf_to_go - input.length })

/-- `decode_bucket` (source lines 720-938) for one input chunk.  The
source's `while (inputlen > 0)` body runs at most once to completion:
every branch either returns or consumes the whole chunk, so the loop is an
if-cascade.  Returns the C return code and the updated configuration. -/
def decode_bucket (cfg : Cfg) (input : List Nat) : Int × Cfg :=
  match input with
  | [] => (1, cfg)
  | b :: rest =>
    match cfg.state with
    | .goaway => (1, cfg)
    | .buffer => bufferStep cfg (b :: rest)
    | s =>
      if s = .start ∧ b ≠ 22 ∧ b ≠ 128 then (-1, cfg)
      else if b = 22 ∨ b = 23 ∨ b = 20 then
        match v3header cfg b rest with
        | .error e => e
        | .ok (cfg2, rem) => bufferStep cfg2 rem
      else if b = 128 then
        match v2header cfg rest with
        | .error e => e
        | .ok (cfg2, rem) => bufferStep cfg2 rem
      else (-1, cfg)

/-- One chunk delivered through `sslhaf_in_filter` (source lines 960-998):
a GOAWAY connection is passed through untouched; otherwise the chunk goes
to `decode_bucket`, and a non-positive return code forces `STATE_GOAWAY`. -/
def feed (cfg : Cfg) (chunk : List Nat) : Cfg :=
  if cfg.state = .goaway then cfg
  else
    let r := decode_bucket cfg chunk
    if r.1 ≤ 0 then { r.2 with state := .goaway } else r.2

/-- A whole connection: the chunks of the input stream fed in order to a
fresh configuration. -/
def run (chunks : List (List Nat)) : Cfg :=
  chunks.foldl feed initCfg

/-! ## FingerprintNormalizer: `str_to_dec` (source lines 1026-1044) and the
token loops of `sslhaf_post_request` (source lines 1050-1166) -/

/-- The fixed 16-value GREASE table of `sslhaf_post_request`
(source lines 1064-1066). -/
def grease_table : List (List Char) :=
  ["0a0a", "1a1a", "2a2a", "3a3a", "4a4a", "5a5a", "6a6a", "7a7a",
   "8a8a", "9a9a", "aaaa", "baba", "caca", "dada", "eaea", "fafa"].map String.toList

/-- The digit loop of `str_to_dec` (source lines 1033-1041): `cur` holds
the value of the current character — and, exactly as in the C, keeps its
previous value when the character is not a lowercase hex digit; each step
adds `cur * 16 ^ length` where `length` counts the characters still to
come. -/
def str_to_dec_go : List Char → Nat → Nat → Nat
  | [], _, res => res
  | c :: cs, cur, res =>
      let cur :=
        if 48 ≤ c.toNat ∧ c.toNat ≤ 57 then c.toNat - 48
        else if 97 ≤ c.toNat ∧ c.toNat ≤ 102 then c.toNat - 87
        else cur
      str_to_dec_go cs cur (res + cur * 16 ^ cs.length)

/-- `str_to_dec` (source lines 1026-1044): the decimal value of a hex
token, rendered by `sprintf("%d-", res)` — decimal digits followed by a
hyphen. -/
def str_to_dec (s : String) : String :=
  toString (str_to_dec_go s.toList 0 0) ++ "-"

/-- `strtok(·, ",")` iteration: the maximal nonempty runs of non-comma
characters, in order (empty fields are skipped, and an empty string yields
no token at all). -/
def strtok_commas : List Char → List (List Char)
  | [] => []
  | c :: cs =>
      if c = ',' then strtok_commas cs
      else (c :: cs.takeWhile (fun d => d ≠ ',')) ::
        strtok_commas (cs.dropWhile (fun d => d ≠ ','))
termination_by s => s.length
decreasing_by
  · simp
  · simp
    exact Nat.lt_succ_of_le (List.Sublist.length_le (List.dropWhile_sublist _))

/-- Drop a string's final character, as `s[strlen(s)-1] = '\0'` does.  (For
the empty string the C writes one byte before the buffer — the published
string is unchanged.) -/
def dropLastChar (s : String) : String := String.mk s.toList.dropLast

/-- The textual transform of the normalisation loop `sslhaf_post_request`
applies to the suites list (source lines 1068-1086), the extensions list
(1095-1113) and the curves list (1146-1164): tokenize on commas, drop
GREASE tokens, append `str_to_dec` of every survivor, and chop the
trailing hyphen.  This is the transform with the loop's fixed-size
buffers ignored; `sslhaf_normalize_post` below performs the same loop
through those buffers. -/
def sslhaf_normalize (s : String) : String :=
  let toks := strtok_commas s.toList
  let kept := toks.filter (fun t => !(grease_table.contains t))
  String.mk ((kept.map (fun t => (str_to_dec (String.mk t)).toList)).flatten.dropLast)

/-- `str_to_dec` seen through its output buffer: the function `malloc`s 10
bytes (source line 1027) and `sprintf`s the decimal digits, the hyphen and
the terminating NUL into them, so a rendered token of more than 9
characters overflows the allocation — undefined behavior, modelled
`none`.  (The `int` overflow of the digit loop would strike only at even
larger values, also mapped to `none` by this bound.) -/
def str_to_dec_buf (t : List Char) : Option (List Char) :=
  let d := (str_to_dec (String.mk t)).toList
  if 9 < d.length then none else some d

/-- The conversion-and-`strcat` loop body of `sslhaf_post_request` (source
lines 1073-1086) over the kept tokens, left to right: the concatenation of
`str_to_dec` of every token, `none` as soon as one conversion overflows
its own buffer. -/
def post_strcat : List (List Char) → Option (List Char)
  | [] => some []
  | t :: ts =>
      match str_to_dec_buf t, post_strcat ts with
      | some d, some rest => some (d ++ rest)
      | _, _ => none

/-- The suites-normalisation block of `sslhaf_post_request` (source lines
1068-1087) with its fixed-size buffers: `strcpy` of the whole list into
`char ste2[100]` (overflow when the list is 100 characters or longer),
GREASE filtering over `strtok(·, ",")`, accumulation of the converted
tokens into the 100-byte `calloc` output buffer by unchecked `strcat`
(overflow when the output and its NUL no longer fit), and the final
`suites[strlen(suites) - 1] = 0` chop of the trailing hyphen, which
writes one byte before the buffer when no token survived the GREASE
filter.  Every such overflow or underflow is undefined behavior,
modelled `none`. -/
def sslhaf_normalize_post (s : String) : Option String :=
  if 99 < s.toList.length then none
  else
    match post_strcat ((strtok_commas s.toList).filter
        (fun t => !(grease_table.contains t))) with
    | none => none
    | some out =>
        if 99 < out.length then none
        else if out.length = 0 then none
        else some (String.mk out.dropLast)

/-- The EC-point-formats publication block (source lines 1119-1144).
A `none` input models `cfg->ec_point == NULL` (extension 11 never seen):
the source then runs `strcpy(ec_cpy, NULL)` — undefined behavior that
produces no value, modelled as `none`.  A present list longer than two
characters goes through the normalisation loop; otherwise the whole copied
string is fed to `str_to_dec` directly and the trailing hyphen chopped. -/
def publish_ec_point : Option String → Option String
  | none => none
  | some s => if 2 < s.length then some (sslhaf_normalize s)
              else some (dropLastChar (str_to_dec s))

/-- The supported-groups ("curves") publication block (source lines
1146-1166).  A `none` input models `cfg->curves == NULL` (extension 10
never seen): the source then runs `strcpy(curve_cpy, NULL)` — undefined
behavior that produces no value, modelled as `none`. -/
def publish_curves : Option String → Option String
  | none => none
  | some s => some (sslhaf_normalize s)

/-! ## Concrete inputs used by the claim theorems -/

/-- A fully buffered handshake record: a ClientHello with one suite, no
compression, and an extensions block of declared length 1 that ends exactly
at the end of the record buffer, so that reading the second byte of the
first extension type goes one byte past the buffer. -/
def c1buf : List Nat :=
  [1, 0, 0, 43, 3, 3] ++ List.replicate 32 0 ++ [0, 0, 2, 0, 4, 0, 0, 1, 0]

/-- A valid 45-byte ClientHello handshake record (inner version 3.3, one
suite 0x002f, one compression method, no extensions). -/
def c8buf : List Nat :=
  [1, 0, 0, 41, 3, 3] ++ List.replicate 32 0 ++ [0, 0, 2, 0, 0x2f, 1, 0]

/-- The `c8buf` record with its outer TLS record header (type 22, record
version 3.1, length 45): a complete valid wire image of a ClientHello. -/
def c2bytes : List Nat := [22, 3, 1, 0, 45] ++ c8buf

/-- The Google-bot-like SSLv2 ClientHello body: cipher-spec length 12,
session-id length 0, challenge length 16, cipher triplets
(00,00,04) (01,00,80) (00,00,05) (00,00,0a), 16 challenge bytes. -/
def googleBuf : List Nat :=
  [0, 12, 0, 0, 0, 16] ++ [0, 0, 4, 1, 0, 0x80, 0, 0, 5, 0, 0, 0x0a] ++
    List.replicate 16 0

/-! ## Proof infrastructure: named combinators and specification-side
definitions used by the claim theorems -/

/-- Dispatch of a record-header-branch result inside the start branch of
`decode_bucket`: an early error return, or continuation into the
buffering branch. -/
def hdrStep (r : Except (Int × Cfg) (Cfg × List Nat)) : Int × Cfg :=
  match r with
  | .error e => e
  | .ok (cfg2, rem) => bufferStep cfg2 rem

/-- The filter's wrapping of one `decode_bucket` return: force
`STATE_GOAWAY` on a non-positive return code. -/
def feedW (r : Int × Cfg) : Cfg :=
  if r.1 ≤ 0 then { r.2 with state := SState.goaway } else r.2

/-- The configuration produced by a record-header branch, whichever way
it exited. -/
def hdrCfg : Except (Int × Cfg) (Cfg × List Nat) → Cfg
  | .error e => e.2
  | .ok q => q.1

/-- After its first processed chunk a connection is either buffering a
record or inert. -/
def Settled (cfg : Cfg) : Prop :=
  cfg.state = SState.goaway ∨ cfg.state = SState.buffer

/-- The transitions the spec allows: stay put, AwaitingRecord to
BufferingRecord, AwaitingRecord to Inert, BufferingRecord to Inert. -/
def transOK (a b : SState) : Prop :=
  a = b ∨ (a = .start ∧ b = .buffer) ∨ (a = .start ∧ b = .goaway) ∨
    (a = .buffer ∧ b = .goaway)

/-- Claim C6's rendering rule, stated as in the claim: a triplet
`(b0,b1,b2)` becomes 6 hex chars when `b0 ≠ 0`, the 4 hex chars
`hex(b1)+hex(b2)` when `b0 = 0` and `b1 ≠ 0`, and the 2 hex chars
`hex(b2)` otherwise. -/
def renderTripletSpec (b0 b1 b2 : Nat) : String :=
  if b0 ≠ 0 then String.mk (c2x b0 ++ c2x b1 ++ c2x b2)
  else if b1 ≠ 0 then String.mk (c2x b1 ++ c2x b2)
  else String.mk (c2x b2)

/-- The numeric value of one lowercase hex digit, as the claim reads it. -/
def hexDigitVal (c : Char) : Nat :=
  if 48 ≤ c.toNat ∧ c.toNat ≤ 57 then c.toNat - 48 else c.toNat - 87

/-- Lowercase hex digit recognizer (`0`-`9`, `a`-`f`). -/
def isHexLower (c : Char) : Bool :=
  (48 ≤ c.toNat && c.toNat ≤ 57) || (97 ≤ c.toNat && c.toNat ≤ 102)

/-- The unsigned value of a hex token: standard positional reading. -/
def hexVal (t : List Char) : Nat :=
  t.foldl (fun a c => 16 * a + hexDigitVal c) 0

/-! ## Supporting lemmas -/

theorem decode_bucket_nil (cfg : Cfg) : decode_bucket cfg [] = (1, cfg) := rfl

theorem decode_bucket_goaway (cfg : Cfg) (h : cfg.state = SState.goaway)
    (input : List Nat) : decode_bucket cfg input = (1, cfg) := by
  cases input with
  | nil => rfl
  | cons b rest => simp only [decode_bucket, h]

theorem decode_bucket_buffer (cfg : Cfg) (h : cfg.state = SState.buffer)
    (b : Nat) (rest : List Nat) :
    decode_bucket cfg (b :: rest) = bufferStep cfg (b :: rest) := by
  simp only [decode_bucket, h]

theorem hdrStep_error (e : Int × Cfg) : hdrStep (.error e) = e := rfl

theorem hdrStep_ok (cfg : Cfg) (rem : List Nat) :
    hdrStep (.ok (cfg, rem)) = bufferStep cfg rem := rfl

theorem decode_bucket_start22 (cfg : Cfg) (h : cfg.state = SState.start)
    (rest : List Nat) :
    decode_bucket cfg (22 :: rest) = hdrStep (v3header cfg 22 rest) := by
  simp only [decode_bucket, h, hdrStep]
  norm_num

theorem decode_bucket_start128 (cfg : Cfg) (h : cfg.state = SState.start)
    (rest : List Nat) :
    decode_bucket cfg (128 :: rest) = hdrStep (v2header cfg rest) := by
  simp only [decode_bucket, h, hdrStep]
  norm_num

theorem decode_bucket_start_other (cfg : Cfg) (h : cfg.state = SState.start)
    (b : Nat) (hb : b ≠ 22) (hb2 : b ≠ 128) (rest : List Nat) :
    decode_bucket cfg (b :: rest) = (-1, cfg) := by
  simp only [decode_bucket, h]
  rw [if_pos ⟨trivial, hb, hb2⟩]

theorem feed_not_goaway (cfg : Cfg) (h : cfg.state ≠ SState.goaway)
    (c : List Nat) :
    feed cfg c =
      (if (decode_bucket cfg c).1 ≤ 0 then
        { (decode_bucket cfg c).2 with state := .goaway }
      else (decode_bucket cfg c).2) := by
  simp only [feed]
  rw [if_neg h]

theorem feed_goaway (cfg : Cfg) (h : cfg.state = SState.goaway)
    (c : List Nat) : feed cfg c = cfg := by
  simp only [feed, h, if_pos]

theorem feed_nil (cfg : Cfg) : feed cfg [] = cfg := by
  by_cases h : cfg.state = SState.goaway
  · exact feed_goaway cfg h []
  · rw [feed_not_goaway cfg h, decode_bucket_nil]
    norm_num

theorem cfg_eta_goaway (cfg : Cfg) (h : cfg.state = SState.goaway) :
    { cfg with state := SState.goaway } = cfg := by
  cases cfg
  simp_all

theorem feedW_of_goaway (r : Int × Cfg) (h : r.2.state = SState.goaway) :
    feedW r = r.2 := by
  unfold feedW
  split
  · exact cfg_eta_goaway r.2 h
  · rfl

theorem bufferComplete_goaway (cfg : Cfg) (input : List Nat) :
    (bufferComplete cfg input).2.state = SState.goaway := rfl

theorem feed_buffer (cfg : Cfg) (hst : cfg.state = SState.buffer)
    (b : Nat) (rest : List Nat) :
    feed cfg (b :: rest) = feedW (bufferStep cfg (b :: rest)) := by
  rw [feed_not_goaway cfg (by rw [hst]; intro hc; cases hc),
    decode_bucket_buffer cfg hst]
  rfl

theorem bufferStep_pos (cfg : Cfg) (input : List Nat)
    (h : cfg.buf_to_go ≤ input.length) :
    bufferStep cfg input = bufferComplete cfg input := by
  unfold bufferStep
  rw [if_pos h]

theorem bufferStep_incomplete (cfg : Cfg) (input : List Nat)
    (h : ¬(cfg.buf_to_go ≤ input.length)) :
    bufferStep cfg input =
      (1, { cfg with buf := some (cfg.buf.getD [] ++ input),
                     buf_to_go := cfg.buf_to_go - input.length }) := by
  unfold bufferStep
  rw [if_neg h]

theorem bufferComplete_take (cfg : Cfg) (a b : List Nat)
    (h : cfg.buf_to_go ≤ a.length) :
    bufferComplete cfg (a ++ b) = bufferComplete cfg a := by
  unfold bufferComplete
  rw [List.take_append_of_le_length h]

theorem bufferComplete_shift (cfg : Cfg) (a b : List Nat)
    (h : a.length < cfg.buf_to_go) :
    bufferComplete cfg (a ++ b) =
      bufferComplete
        { cfg with buf := some (cfg.buf.getD [] ++ a),
                   buf_to_go := cfg.buf_to_go - a.length } b := by
  unfold bufferComplete
  dsimp only
  rw [List.take_append_eq_append_take,
    List.take_of_length_le (le_of_lt h), Option.getD_some, List.append_assoc]

theorem v3header_cons (cfg : Cfg) (b vh vl b1 b2 : Nat) (rest : List Nat) :
    v3header cfg b (vh :: vl :: b1 :: b2 :: rest) =
      (let cfg2 :=
        if cfg.protocol_high = 0 then
          { cfg with
            buf_protocol := b, hello_version := 3,
            protocol_high := vh, protocol_low := vl }
        else { cfg with buf_protocol := b, hello_version := 3 }
       if b1 * 256 + b2 = 0 ∨ 16384 < b1 * 256 + b2 then .error (-1, cfg2)
       else .ok ({ cfg2 with
                   state := .buffer, buf := some [],
                   buf_to_go := b1 * 256 + b2 }, rest)) := by
  unfold v3header
  simp only [List.length_cons, List.getD_cons_zero, List.getD_cons_succ,
    List.drop_succ_cons, List.drop_zero]
  rw [if_neg (by omega)]

theorem v2header_cons (cfg : Cfg) (lb t vh vl : Nat) (rest : List Nat) :
    v2header cfg (lb :: t :: vh :: vl :: rest) =
      (if t ≠ 1 then .error (-1, cfg)
       else
        let cfg2 :=
          if vh = 0 ∧ vl = 2 then
            { cfg with
              hello_version := 2, protocol_high := vl, protocol_low := vh }
          else
            { cfg with
              hello_version := 2, protocol_high := vh, protocol_low := vl }
        let len := (lb + (SIZE_MOD - 3)) % SIZE_MOD
        if len = 0 ∨ 16384 < len then .error (-1, cfg2)
        else .ok ({ cfg2 with
                    state := .buffer, buf := some [],
                    buf_to_go := len }, rest)) := by
  unfold v2header
  simp only [List.length_cons, List.getD_cons_zero, List.getD_cons_succ,
    List.drop_succ_cons, List.drop_zero]
  rw [if_neg (by omega)]

theorem v3header_init (vh vl b1 b2 : Nat) (rest : List Nat) :
    v3header initCfg 22 (vh :: vl :: b1 :: b2 :: rest) =
      (if b1 * 256 + b2 = 0 ∨ 16384 < b1 * 256 + b2 then
        .error (-1, { initCfg with
                      buf_protocol := 22, hello_version := 3,
                      protocol_high := vh, protocol_low := vl })
       else
        .ok ({ initCfg with
               state := .buffer, buf := some [], buf_to_go := b1 * 256 + b2,
               buf_protocol := 22, hello_version := 3,
               protocol_high := vh, protocol_low := vl }, rest)) := by
  rw [v3header_cons]
  norm_num [initCfg]

theorem v2header_init (lb vh vl : Nat) (rest : List Nat) :
    v2header initCfg (lb :: 1 :: vh :: vl :: rest) =
      (if (lb + (SIZE_MOD - 3)) % SIZE_MOD = 0 ∨
          16384 < (lb + (SIZE_MOD - 3)) % SIZE_MOD then
        .error (-1,
          if vh = 0 ∧ vl = 2 then
            { initCfg with hello_version := 2, protocol_high := vl, protocol_low := vh }
          else
            { initCfg with hello_version := 2, protocol_high := vh, protocol_low := vl })
       else
        .ok ({ (if vh = 0 ∧ vl = 2 then
                 { initCfg with hello_version := 2, protocol_high := vl, protocol_low := vh }
                else
                 { initCfg with hello_version := 2, protocol_high := vh, protocol_low := vl }) with
               state := .buffer, buf := some [],
               buf_to_go := (lb + (SIZE_MOD - 3)) % SIZE_MOD }, rest)) := by
  rw [v2header_cons]
  rw [if_neg (by decide)]

theorem bufferStep_hello (cfg : Cfg) (input : List Nat) :
    (bufferStep cfg input).2.hello_version = cfg.hello_version := by
  simp only [bufferStep]
  split <;> rfl

theorem feedW_hello (r : Int × Cfg) :
    (if r.1 ≤ 0 then { r.2 with state := SState.goaway } else r.2).hello_version =
      r.2.hello_version := by
  split <;> rfl

theorem bufferStep_state (cfg : Cfg) (input : List Nat) :
    (bufferStep cfg input).2.state = SState.goaway ∨
      (bufferStep cfg input).2.state = cfg.state := by
  simp only [bufferStep]
  split
  · left; rfl
  · right; rfl

theorem v3header_cases (cfg : Cfg) (b : Nat) (rest : List Nat) :
    (∃ e : Int × Cfg, v3header cfg b rest = .error e ∧ e.2.state = cfg.state) ∨
    (∃ q : Cfg × List Nat, v3header cfg b rest = .ok q ∧ q.1.state = .buffer) := by
  unfold v3header
  dsimp only
  split
  · exact Or.inl ⟨_, rfl, rfl⟩
  · split
    · refine Or.inl ⟨_, rfl, ?_⟩
      split <;> rfl
    · exact Or.inr ⟨_, rfl, rfl⟩

theorem v2header_cases (cfg : Cfg) (rest : List Nat) :
    (∃ e : Int × Cfg, v2header cfg rest = .error e ∧ e.2.state = cfg.state) ∨
    (∃ q : Cfg × List Nat, v2header cfg rest = .ok q ∧ q.1.state = .buffer) := by
  unfold v2header
  dsimp only
  split
  · exact Or.inl ⟨_, rfl, rfl⟩
  · split
    · exact Or.inl ⟨_, rfl, rfl⟩
    · split
      · refine Or.inl ⟨_, rfl, ?_⟩
        split <;> rfl
      · exact Or.inr ⟨_, rfl, rfl⟩

theorem feed_step (cfg : Cfg) (hne : cfg.state ≠ SState.reading)
    (c : List Nat) : transOK cfg.state (feed cfg c).state := by
  rcases c with _ | ⟨b, rest⟩
  · rw [feed_nil]; exact Or.inl rfl
  by_cases hgo : cfg.state = SState.goaway
  · rw [feed_goaway cfg hgo]; exact Or.inl rfl
  rw [feed_not_goaway cfg hgo]
  rcases hst : cfg.state with _ | _ | _ | _
  · -- start
    by_cases hb22 : b = 22
    · subst hb22
      rw [decode_bucket_start22 cfg hst]
      rcases v3header_cases cfg 22 rest with ⟨e, he, hs⟩ | ⟨q, hq, hs⟩
      · rw [he, hdrStep_error]
        split
        · exact Or.inr (Or.inr (Or.inl ⟨rfl, rfl⟩))
        · rw [hs, hst]; exact Or.inl rfl
      · rw [hq, hdrStep_ok]
        split
        · exact Or.inr (Or.inr (Or.inl ⟨rfl, rfl⟩))
        · rcases bufferStep_state q.1 q.2 with h | h
          · rw [h]; exact Or.inr (Or.inr (Or.inl ⟨rfl, rfl⟩))
          · rw [h, hs]; exact Or.inr (Or.inl ⟨rfl, rfl⟩)
    · by_cases hb128 : b = 128
      · subst hb128
        rw [decode_bucket_start128 cfg hst]
        rcases v2header_cases cfg rest with ⟨e, he, hs⟩ | ⟨q, hq, hs⟩
        · rw [he, hdrStep_error]
          split
          · exact Or.inr (Or.inr (Or.inl ⟨rfl, rfl⟩))
          · rw [hs, hst]; exact Or.inl rfl
        · rw [hq, hdrStep_ok]
          split
          · exact Or.inr (Or.inr (Or.inl ⟨rfl, rfl⟩))
          · rcases bufferStep_state q.1 q.2 with h | h
            · rw [h]; exact Or.inr (Or.inr (Or.inl ⟨rfl, rfl⟩))
            · rw [h, hs]; exact Or.inr (Or.inl ⟨rfl, rfl⟩)
      · rw [decode_bucket_start_other cfg hst b hb22 hb128 rest]
        rw [if_pos (by norm_num)]
        exact Or.inr (Or.inr (Or.inl ⟨rfl, rfl⟩))
  · -- buffer
    rw [decode_bucket_buffer cfg hst b rest]
    split
    · exact Or.inr (Or.inr (Or.inr ⟨rfl, rfl⟩))
    · rcases bufferStep_state cfg (b :: rest) with h | h
      · rw [h]; exact Or.inr (Or.inr (Or.inr ⟨rfl, rfl⟩))
      · rw [h, hst]; exact Or.inl rfl
  · -- reading: excluded
    exact absurd hst hne
  · -- goaway: excluded
    exact absurd hst hgo

theorem feed_not_reading (cfg : Cfg) (hne : cfg.state ≠ SState.reading)
    (c : List Nat) : (feed cfg c).state ≠ SState.reading := by
  rcases feed_step cfg hne c with h | ⟨_, h⟩ | ⟨_, h⟩ | ⟨_, h⟩
  · rw [← h]; exact hne
  · rw [h]; intro hc; cases hc
  · rw [h]; intro hc; cases hc
  · rw [h]; intro hc; cases hc

theorem run_not_reading (chunks : List (List Nat)) :
    (run chunks).state ≠ SState.reading := by
  induction chunks using List.reverseRecOn with
  | nil => intro hc; cases hc
  | append_singleton cs c ih =>
      rw [run, List.foldl_append]
      exact feed_not_reading _ ih c

theorem bufferStep_append (cfg : Cfg) (hst : cfg.state = SState.buffer)
    (a b : List Nat) :
    feedW (bufferStep cfg (a ++ b)) = feed (feedW (bufferStep cfg a)) b := by
  by_cases hga : cfg.buf_to_go ≤ a.length
  · -- the record completes inside `a`
    have hgab : cfg.buf_to_go ≤ (a ++ b).length := by
      rw [List.length_append]; omega
    rw [bufferStep_pos cfg _ hgab, bufferStep_pos cfg _ hga,
      bufferComplete_take cfg a b hga,
      feedW_of_goaway _ (bufferComplete_goaway cfg a),
      feed_goaway _ (bufferComplete_goaway cfg a)]
  · by_cases hgb : cfg.buf_to_go ≤ a.length + b.length
    · -- the record completes inside `b`
      have hgab : cfg.buf_to_go ≤ (a ++ b).length := by
        rw [List.length_append]; omega
      rw [bufferStep_pos cfg _ hgab, bufferStep_incomplete cfg a hga]
      rw [bufferComplete_shift cfg a b (by omega)]
      set cfg2 : Cfg :=
        { cfg with buf := some (cfg.buf.getD [] ++ a),
                   buf_to_go := cfg.buf_to_go - a.length } with hcfg2
      have hW : feedW (1, cfg2) = cfg2 := by unfold feedW; norm_num
      rw [hW]
      have hg2 : cfg2.buf_to_go ≤ b.length := by
        rw [hcfg2]
        show cfg.buf_to_go - a.length ≤ b.length
        omega
      rcases b with _ | ⟨x, xs⟩
      · simp at hg2
        omega
      rw [feed_buffer cfg2 hst x xs, bufferStep_pos cfg2 (x :: xs) hg2,
        feedW_of_goaway _ (bufferComplete_goaway cfg2 (x :: xs))]
    · -- still not enough data
      have hgab : ¬(cfg.buf_to_go ≤ (a ++ b).length) := by
        rw [List.length_append]; omega
      rw [bufferStep_incomplete cfg _ hgab, bufferStep_incomplete cfg a hga]
      set cfg2 : Cfg :=
        { cfg with buf := some (cfg.buf.getD [] ++ a),
                   buf_to_go := cfg.buf_to_go - a.length } with hcfg2
      have hW : feedW (1, cfg2) = cfg2 := by unfold feedW; norm_num
      have hW2 : ∀ c : Cfg, feedW (1, c) = c := by
        intro c; unfold feedW; norm_num
      rw [hW2, hW2]
      have hg2 : ¬(cfg2.buf_to_go ≤ b.length) := by
        rw [hcfg2]
        show ¬(cfg.buf_to_go - a.length ≤ b.length)
        omega
      rcases b with _ | ⟨x, xs⟩
      · rw [feed_nil, hcfg2]
        simp
      rw [feed_buffer cfg2 hst x xs, bufferStep_incomplete cfg2 (x :: xs) hg2, hW2]
      rw [hcfg2]
      congr 1
      · simp
      · dsimp only
        rw [List.length_append]
        omega

theorem feed_append_settled (cfg : Cfg) (hs : Settled cfg) (a b : List Nat) :
    feed cfg (a ++ b) = feed (feed cfg a) b := by
  rcases hs with h | h
  · rw [feed_goaway cfg h, feed_goaway cfg h, feed_goaway cfg h]
  · rcases a with _ | ⟨x, xs⟩
    · rw [List.nil_append, feed_nil]
    rw [show (x :: xs) ++ b = x :: (xs ++ b) from rfl,
      feed_buffer cfg h x (xs ++ b), feed_buffer cfg h x xs,
      show x :: (xs ++ b) = (x :: xs) ++ b from rfl]
    exact bufferStep_append cfg h (x :: xs) b

theorem feedW_settled (cfg : Cfg) (hst : cfg.state = SState.buffer)
    (input : List Nat) : Settled (feedW (bufferStep cfg input)) := by
  by_cases hc : cfg.buf_to_go ≤ input.length
  · rw [bufferStep_pos cfg input hc,
      feedW_of_goaway _ (bufferComplete_goaway cfg input)]
    exact Or.inl (bufferComplete_goaway cfg input)
  · rw [bufferStep_incomplete cfg input hc]
    have : feedW (1, { cfg with
        buf := some (cfg.buf.getD [] ++ input),
        buf_to_go := cfg.buf_to_go - input.length }) =
        { cfg with
          buf := some (cfg.buf.getD [] ++ input),
          buf_to_go := cfg.buf_to_go - input.length } := by
      unfold feedW; norm_num
    rw [this]
    exact Or.inr hst

theorem feed_settled (cfg : Cfg) (hs : Settled cfg) (c : List Nat) :
    Settled (feed cfg c) := by
  rcases hs with h | h
  · rw [feed_goaway cfg h]; exact Or.inl h
  · rcases c with _ | ⟨x, xs⟩
    · rw [feed_nil]; exact Or.inr h
    · rw [feed_buffer cfg h x xs]
      exact feedW_settled cfg h (x :: xs)

theorem first_chunk (a b : List Nat) (h5 : 5 ≤ a.length) :
    Settled (feed initCfg a) ∧ feed initCfg (a ++ b) = feed (feed initCfg a) b := by
  rcases a with _ | ⟨a0, a⟩
  · simp at h5
  rcases a with _ | ⟨a1, a⟩
  · simp at h5
  rcases a with _ | ⟨a2, a⟩
  · simp at h5
  rcases a with _ | ⟨a3, a⟩
  · simp at h5
  rcases a with _ | ⟨a4, a⟩
  · simp at h5
  clear h5
  by_cases h22 : a0 = 22
  · subst h22
    by_cases hc : a3 * 256 + a4 = 0 ∨ 16384 < a3 * 256 + a4
    · have hfeed : ∀ tail : List Nat,
          feed initCfg (22 :: a1 :: a2 :: a3 :: a4 :: tail) =
            { initCfg with
              state := .goaway, buf_protocol := 22, hello_version := 3,
              protocol_high := a1, protocol_low := a2 } := by
        intro tail
        rw [feed_not_goaway initCfg (by decide),
          decode_bucket_start22 initCfg rfl, v3header_init, if_pos hc,
          hdrStep_error, if_pos (by norm_num)]
      refine ⟨by rw [hfeed]; exact Or.inl rfl, ?_⟩
      rw [show (22 :: a1 :: a2 :: a3 :: a4 :: a) ++ b =
        22 :: a1 :: a2 :: a3 :: a4 :: (a ++ b) from rfl, hfeed, hfeed,
        feed_goaway _ rfl]
    · have hfeed : ∀ tail : List Nat,
          feed initCfg (22 :: a1 :: a2 :: a3 :: a4 :: tail) =
            feedW (bufferStep { initCfg with
              state := .buffer, buf := some [], buf_to_go := a3 * 256 + a4,
              buf_protocol := 22, hello_version := 3,
              protocol_high := a1, protocol_low := a2 } tail) := by
        intro tail
        rw [feed_not_goaway initCfg (by decide),
          decode_bucket_start22 initCfg rfl, v3header_init, if_neg hc,
          hdrStep_ok]
        rfl
      refine ⟨by rw [hfeed]; exact feedW_settled _ rfl a, ?_⟩
      rw [show (22 :: a1 :: a2 :: a3 :: a4 :: a) ++ b =
        22 :: a1 :: a2 :: a3 :: a4 :: (a ++ b) from rfl, hfeed, hfeed]
      exact bufferStep_append _ rfl a b
  by_cases h128 : a0 = 128
  · subst h128
    by_cases ht : a2 ≠ 1
    · have hfeed : ∀ tail : List Nat,
          feed initCfg (128 :: a1 :: a2 :: a3 :: a4 :: tail) =
            { initCfg with state := .goaway } := by
        intro tail
        rw [feed_not_goaway initCfg (by decide),
          decode_bucket_start128 initCfg rfl, v2header_cons, if_pos ht,
          hdrStep_error, if_pos (by norm_num)]
      refine ⟨by rw [hfeed]; exact Or.inl rfl, ?_⟩
      rw [show (128 :: a1 :: a2 :: a3 :: a4 :: a) ++ b =
        128 :: a1 :: a2 :: a3 :: a4 :: (a ++ b) from rfl, hfeed, hfeed,
        feed_goaway _ rfl]
    · push_neg at ht
      subst ht
      by_cases hc : (a1 + (SIZE_MOD - 3)) % SIZE_MOD = 0 ∨
          16384 < (a1 + (SIZE_MOD - 3)) % SIZE_MOD
      · have hfeed : ∀ tail : List Nat,
            feed initCfg (128 :: a1 :: 1 :: a3 :: a4 :: tail) =
              { (if a3 = 0 ∧ a4 = 2 then
                  { initCfg with
                    hello_version := 2, protocol_high := a4, protocol_low := a3 }
                 else
                  { initCfg with
                    hello_version := 2, protocol_high := a3, protocol_low := a4 }) with
                state := .goaway } := by
          intro tail
          rw [feed_not_goaway initCfg (by decide),
            decode_bucket_start128 initCfg rfl, v2header_init, if_pos hc,
            hdrStep_error, if_pos (by norm_num)]
        refine ⟨by rw [hfeed]; exact Or.inl rfl, ?_⟩
        rw [show (128 :: a1 :: 1 :: a3 :: a4 :: a) ++ b =
          128 :: a1 :: 1 :: a3 :: a4 :: (a ++ b) from rfl, hfeed, hfeed,
          feed_goaway _ rfl]
      · have hfeed : ∀ tail : List Nat,
            feed initCfg (128 :: a1 :: 1 :: a3 :: a4 :: tail) =
              feedW (bufferStep { (if a3 = 0 ∧ a4 = 2 then
                  { initCfg with
                    hello_version := 2, protocol_high := a4, protocol_low := a3 }
                 else
                  { initCfg with
                    hello_version := 2, protocol_high := a3, protocol_low := a4 }) with
                state := .buffer, buf := some [],
                buf_to_go := (a1 + (SIZE_MOD - 3)) % SIZE_MOD } tail) := by
          intro tail
          rw [feed_not_goaway initCfg (by decide),
            decode_bucket_start128 initCfg rfl, v2header_init, if_neg hc,
            hdrStep_ok]
          rfl
        refine ⟨by rw [hfeed]; exact feedW_settled _ rfl a, ?_⟩
        rw [show (128 :: a1 :: 1 :: a3 :: a4 :: a) ++ b =
          128 :: a1 :: 1 :: a3 :: a4 :: (a ++ b) from rfl, hfeed, hfeed]
        exact bufferStep_append _ rfl a b
  · have hfeed : ∀ tail : List Nat,
        feed initCfg (a0 :: tail) = { initCfg with state := .goaway } := by
      intro tail
      rw [feed_not_goaway initCfg (by decide),
        decode_bucket_start_other initCfg rfl a0 h22 h128 tail,
        if_pos (by norm_num)]
    refine ⟨by rw [hfeed]; exact Or.inl rfl, ?_⟩
    rw [show (a0 :: a1 :: a2 :: a3 :: a4 :: a) ++ b =
      a0 :: (a1 :: a2 :: a3 :: a4 :: (a ++ b)) from rfl, hfeed,
      hfeed (a1 :: a2 :: a3 :: a4 :: a), feed_goaway _ rfl]

theorem foldl_feed_settled : ∀ (chunks : List (List Nat)) (cfg : Cfg),
    Settled cfg → List.foldl feed cfg chunks = feed cfg chunks.flatten := by
  intro chunks
  induction chunks with
  | nil => intro cfg _; rw [List.foldl_nil, List.flatten_nil, feed_nil]
  | cons c cs ih =>
      intro cfg hs
      rw [List.foldl_cons, ih (feed cfg c) (feed_settled cfg hs c),
        List.flatten_cons, feed_append_settled cfg hs c cs.flatten]

theorem v2token_eq_spec (b0 b1 b2 : Nat) :
    v2token b0 b1 b2 = renderTripletSpec b0 b1 b2 := by
  unfold v2token renderTripletSpec
  by_cases h0 : b0 = 0
  · by_cases h1 : b1 = 0
    · simp [h0, h1]
    · simp [h0, h1]
  · simp [h0, List.append_assoc]

theorem v2triplets_eq_map (buf : List Nat) :
    ∀ (n i : Nat), v2triplets buf n i =
      (List.range n).map (fun k =>
        renderTripletSpec (buf.getD (i + 3 * k) 0)
          (buf.getD (i + 3 * k + 1) 0) (buf.getD (i + 3 * k + 2) 0)) := by
  intro n
  induction n with
  | zero => intro i; rfl
  | succ m ih =>
      intro i
      rw [v2triplets, List.range_succ_eq_map, List.map_cons, List.map_map]
      rw [v2token_eq_spec, ih (i + 3)]
      refine congrArg₂ List.cons ?_ ?_
      · norm_num
      · refine List.map_congr_left ?_
        intro k _
        have e1 : i + 3 + 3 * k = i + 3 * (k + 1) := by ring
        have e2 : i + 3 + 3 * k + 1 = i + 3 * (k + 1) + 1 := by ring
        have e3 : i + 3 + 3 * k + 2 = i + 3 * (k + 1) + 2 := by ring
        simp [Function.comp, e1, e2, e3]

theorem v3_exts_fields (ch : String) (ph pl slen : Nat)
    (th tp ts : String) (cl : Nat) (cm : String) (buf : List Nat)
    (p mylen : Nat) (hello : V3Hello)
    (h : v3_exts_stage ch ph pl slen th tp ts cl cm buf p mylen =
      .ok (some hello)) :
    hello.protocol_high = ph ∧ hello.protocol_low = pl ∧ hello.tprotocol = tp := by
  delta v3_exts_stage at h
  split at h
  · simp at h
    subst h
    exact ⟨rfl, rfl, rfl⟩
  split at h
  · simp at h
  simp only [] at h
  split at h
  · simp at h
  split at h
  · simp at h
  · simp at h
    subst h
    exact ⟨rfl, rfl, rfl⟩

theorem v3_comp_fields (ch : String) (ph pl slen : Nat)
    (th tp ts : String) (buf : List Nat) (p mylen : Nat) (hello : V3Hello)
    (h : v3_comp_stage ch ph pl slen th tp ts buf p mylen = .ok (some hello)) :
    hello.protocol_high = ph ∧ hello.protocol_low = pl ∧ hello.tprotocol = tp := by
  delta v3_comp_stage at h
  split at h
  · simp at h
  simp only [] at h
  split at h
  · simp at h
  · exact v3_exts_fields _ _ _ _ _ _ _ _ _ _ _ _ _ h

theorem v3_cs_fields (hv : Nat) (ch : String) (ph pl : Nat)
    (buf : List Nat) (p mylen : Nat) (hello : V3Hello)
    (h : v3_cs_stage hv ch ph pl buf p mylen = .ok (some hello)) :
    hello.protocol_high = ph ∧ hello.protocol_low = pl ∧
      hello.tprotocol = toString ph ++ "." ++ toString pl := by
  delta v3_cs_stage at h
  split at h
  · simp at h
  simp only [] at h
  split at h
  · simp at h
  · exact v3_comp_fields _ _ _ _ _ _ _ _ _ _ _ h

theorem v3_after_version_fields (hv : Nat) (ch : String) (ph pl : Nat)
    (buf : List Nat) (mylen : Nat) (hello : V3Hello)
    (h : v3_after_version hv ch ph pl buf mylen = .ok (some hello)) :
    hello.protocol_high = ph ∧ hello.protocol_low = pl ∧
      hello.tprotocol = toString ph ++ "." ++ toString pl := by
  delta v3_after_version at h
  split at h
  · simp at h
  simp only [] at h
  split at h
  · simp at h
  · exact v3_cs_fields _ _ _ _ _ _ _ _ h

theorem decode_v3_fields (hv ph pl : Nat) (buf : List Nat) (hello : V3Hello)
    (h : decode_packet_v3_handshake hv ph pl buf = .ok (some hello)) :
    hello.protocol_high = buf.getD 4 0 ∧ hello.protocol_low = buf.getD 5 0 ∧
      hello.tprotocol = toString (buf.getD 4 0) ++ "." ++ toString (buf.getD 5 0) := by
  delta decode_packet_v3_handshake at h
  split at h
  · simp at h
  split at h
  · simp at h
  simp only [] at h
  split at h
  · simp at h
  split at h
  · simp at h
  · exact v3_after_version_fields _ _ _ _ _ _ _ h

theorem hex_ne_comma {c : Char} (h : isHexLower c = true) : ¬(c = ',') := by
  intro hc
  subst hc
  simp [isHexLower] at h

theorem foldl_hex_shift : ∀ (t : List Char) (a : Nat),
    t.foldl (fun a c => 16 * a + hexDigitVal c) a = a * 16 ^ t.length + hexVal t := by
  intro t
  induction t with
  | nil => intro a; simp [hexVal]
  | cons c t ih =>
      intro a
      rw [List.foldl_cons, ih]
      have h2 : hexVal (c :: t) = hexDigitVal c * 16 ^ t.length + hexVal t := by
        rw [hexVal, List.foldl_cons, ih]
        ring_nf
      rw [h2]
      simp [List.length_cons, pow_succ]
      ring

theorem str_to_dec_go_spec : ∀ (t : List Char) (cur res : Nat),
    (∀ c ∈ t, isHexLower c = true) →
    str_to_dec_go t cur res = res + hexVal t := by
  intro t
  induction t with
  | nil => intro cur res _; simp [str_to_dec_go, hexVal]
  | cons c t ih =>
      intro cur res hall
      have hc := hall c (List.mem_cons_self c t)
      have hcur : (if 48 ≤ c.toNat ∧ c.toNat ≤ 57 then c.toNat - 48
          else if 97 ≤ c.toNat ∧ c.toNat ≤ 102 then c.toNat - 87
          else cur) = hexDigitVal c := by
        simp only [isHexLower, Bool.or_eq_true, Bool.and_eq_true, decide_eq_true_eq] at hc
        rcases hc with ⟨h1, h2⟩ | ⟨h1, h2⟩
        · rw [if_pos ⟨h1, h2⟩, hexDigitVal, if_pos ⟨h1, h2⟩]
        · have hno : ¬(48 ≤ c.toNat ∧ c.toNat ≤ 57) := by omega
          rw [if_neg hno, if_pos ⟨h1, h2⟩, hexDigitVal, if_neg hno]
      rw [str_to_dec_go, hcur, ih _ _ (fun d hd => hall d (List.mem_cons_of_mem c hd))]
      have h2 : hexVal (c :: t) = hexDigitVal c * 16 ^ t.length + hexVal t := by
        rw [hexVal, List.foldl_cons, foldl_hex_shift]
        ring_nf
      rw [h2]
      ring

theorem str_to_dec_spec (t : List Char) (hall : ∀ c ∈ t, isHexLower c = true) :
    str_to_dec (String.mk t) = toString (hexVal t) ++ "-" := by
  unfold str_to_dec
  rw [show (String.mk t).toList = t from rfl,
    str_to_dec_go_spec t 0 0 hall, Nat.zero_add]

theorem takeWhile_append_all (p : Char → Bool) :
    ∀ (t r : List Char), (∀ c ∈ t, p c = true) →
      (t ++ r).takeWhile p = t ++ r.takeWhile p := by
  intro t
  induction t with
  | nil => intro r _; simp
  | cons c t ih =>
      intro r hall
      rw [List.cons_append, List.takeWhile_cons,
        if_pos (hall c (List.mem_cons_self c t)),
        ih r (fun d hd => hall d (List.mem_cons_of_mem c hd))]
      rfl

theorem dropWhile_append_all (p : Char → Bool) :
    ∀ (t r : List Char), (∀ c ∈ t, p c = true) →
      (t ++ r).dropWhile p = r.dropWhile p := by
  intro t
  induction t with
  | nil => intro r _; simp
  | cons c t ih =>
      intro r hall
      rw [List.cons_append, List.dropWhile_cons,
        if_pos (hall c (List.mem_cons_self c t)),
        ih r (fun d hd => hall d (List.mem_cons_of_mem c hd))]

theorem strtok_joinSep : ∀ (ts : List (List Char)),
    (∀ t ∈ ts, t ≠ [] ∧ ∀ c ∈ t, ¬(c = ',')) →
    strtok_commas (joinSep ',' ts) = ts := by
  intro ts
  induction ts with
  | nil =>
      intro _
      show strtok_commas [] = []
      simp [strtok_commas]
  | cons t ts ih =>
      intro hall
      obtain ⟨hne, hcm⟩ := hall t (List.mem_cons_self t ts)
      rcases t with _ | ⟨c, t⟩
      · exact absurd rfl hne
      have hcb : ∀ d ∈ t, (fun d => decide (¬(d = ','))) d = true := by
        intro d hd
        simp only [decide_eq_true_eq]
        exact hcm d (List.mem_cons_of_mem c hd)
      have hc : (c = ',') = False := by
        simp [hcm c (List.mem_cons_self c t)]
      rcases ts with _ | ⟨t2, ts⟩
      · show strtok_commas (c :: t) = [c :: t]
        rw [strtok_commas]
        rw [if_neg (by simp [hc])]
        have h1 : t.takeWhile (fun d => decide (¬(d = ','))) = t := by
          have := takeWhile_append_all (fun d => decide (¬(d = ','))) t [] hcb
          simpa using this
        have h2 : t.dropWhile (fun d => decide (¬(d = ','))) = [] := by
          have := dropWhile_append_all (fun d => decide (¬(d = ','))) t [] hcb
          simpa using this
        simp only [h1, h2]
        simp [strtok_commas]
      · show strtok_commas ((c :: t) ++ ',' :: joinSep ',' (t2 :: ts)) = (c :: t) :: t2 :: ts
        rw [List.cons_append, strtok_commas]
        rw [if_neg (by simp [hc])]
        rw [takeWhile_append_all _ t _ hcb, dropWhile_append_all _ t _ hcb]
        have h3 : (',' :: joinSep ',' (t2 :: ts)).takeWhile
            (fun d => decide (¬(d = ','))) = [] := by
          simp [List.takeWhile_cons]
        have h4 : (',' :: joinSep ',' (t2 :: ts)).dropWhile
            (fun d => decide (¬(d = ','))) = ',' :: joinSep ',' (t2 :: ts) := by
          simp [List.dropWhile_cons]
        rw [h3, h4, List.append_nil]
        rw [show strtok_commas (',' :: joinSep ',' (t2 :: ts)) =
          strtok_commas (joinSep ',' (t2 :: ts)) from by rw [strtok_commas]; simp]
        rw [ih (fun u hu => hall u (List.mem_cons_of_mem (c :: t) hu))]

theorem trail_join : ∀ xs : List (List Char),
    ((xs.map (fun x => x ++ ['-'])).flatten).dropLast = joinSep '-' xs := by
  intro xs
  induction xs with
  | nil => rfl
  | cons x xs ih =>
      rcases xs with _ | ⟨y, ys⟩
      · show ((x ++ ['-']) ++ []).dropLast = x
        rw [List.append_nil]
        exact List.dropLast_concat
      · show ((x ++ ['-']) ++ ((y :: ys).map (fun x => x ++ ['-'])).flatten).dropLast =
          x ++ '-' :: joinSep '-' (y :: ys)
        rw [List.dropLast_append_of_ne_nil _ (by simp), ih]
        simp

theorem hexDigitVal_lt (c : Char) (h : isHexLower c = true) : hexDigitVal c < 16 := by
  simp only [isHexLower, Bool.or_eq_true, Bool.and_eq_true, decide_eq_true_eq] at h
  unfold hexDigitVal
  rcases h with ⟨h1, h2⟩ | ⟨h1, h2⟩ <;> split <;> omega

theorem hexVal_lt : ∀ t : List Char, (∀ c ∈ t, isHexLower c = true) →
    hexVal t < 16 ^ t.length := by
  intro t
  induction t with
  | nil => intro _; simp [hexVal]
  | cons c t ih =>
      intro hall
      have h2 : hexVal (c :: t) = hexDigitVal c * 16 ^ t.length + hexVal t := by
        rw [hexVal, List.foldl_cons, foldl_hex_shift]
        ring_nf
      rw [h2, List.length_cons, pow_succ]
      have ha := hexDigitVal_lt c (hall c (List.mem_cons_self c t))
      have hb := ih (fun d hd => hall d (List.mem_cons_of_mem c hd))
      nlinarith [pow_pos (show (0:ℕ) < 16 by norm_num) t.length]

theorem str_to_dec_buf_spec (t : List Char) (hhex : ∀ c ∈ t, isHexLower c = true)
    (hlen : t.length ≤ 6) :
    str_to_dec_buf t = some ((toString (hexVal t)).toList ++ ['-']) := by
  have hv : hexVal t < 10 ^ 8 := by
    calc hexVal t < 16 ^ t.length := hexVal_lt t hhex
      _ ≤ 16 ^ 6 := Nat.pow_le_pow_right (by norm_num) hlen
      _ < 10 ^ 8 := by norm_num
  have hr : (toString (hexVal t)).toList.length ≤ 8 := by
    have h0 : (toString (hexVal t)).toList.length = (Nat.repr (hexVal t)).length := rfl
    rw [h0]
    exact Nat.repr_length _ 8 (by norm_num) hv
  show (if 9 < ((str_to_dec (String.mk t)).toList).length then none
        else some ((str_to_dec (String.mk t)).toList)) =
      some ((toString (hexVal t)).toList ++ ['-'])
  rw [str_to_dec_spec t hhex]
  have htl : ((toString (hexVal t) ++ "-").toList) =
      (toString (hexVal t)).toList ++ ['-'] := rfl
  rw [htl]
  rw [if_neg (by
    simp only [List.length_append, List.length_cons, List.length_nil]
    omega)]

theorem post_strcat_spec : ∀ ts : List (List Char),
    (∀ t ∈ ts, (∀ c ∈ t, isHexLower c = true) ∧ t.length ≤ 6) →
    post_strcat ts =
      some (((ts.map (fun t => (toString (hexVal t)).toList)).map
        (fun x => x ++ ['-'])).flatten) := by
  intro ts
  induction ts with
  | nil => intro _; rfl
  | cons t ts ih =>
      intro hall
      obtain ⟨hh, hl⟩ := hall t (List.mem_cons_self t ts)
      show (match str_to_dec_buf t, post_strcat ts with
            | some d, some rest => some (d ++ rest)
            | _, _ => none) = _
      rw [str_to_dec_buf_spec t hh hl,
        ih (fun u hu => hall u (List.mem_cons_of_mem t hu))]
      rfl

theorem hyphen_flatten_ne_nil (xs : List (List Char)) (h : xs ≠ []) :
    ((xs.map (fun x => x ++ ['-'])).flatten) ≠ [] := by
  rcases xs with _ | ⟨x, xs⟩
  · exact absurd rfl h
  · simp

/-- The unbounded textual transform on a comma-joined list of nonempty
lowercase-hex tokens: exactly the non-GREASE tokens, each converted to
decimal, joined with hyphens, in their original relative order. -/
theorem sslhaf_normalize_spec (tokens : List (List Char))
    (hne : ∀ t ∈ tokens, t ≠ [])
    (hhex : ∀ t ∈ tokens, ∀ c ∈ t, isHexLower c = true) :
    sslhaf_normalize (String.mk (joinSep ',' tokens)) =
      String.mk (joinSep '-'
        ((tokens.filter (fun t => !(grease_table.contains t))).map
          (fun t => (toString (hexVal t)).toList))) := by
  unfold sslhaf_normalize
  rw [show (String.mk (joinSep ',' tokens)).toList = joinSep ',' tokens from rfl]
  rw [strtok_joinSep tokens
    (fun t ht => ⟨hne t ht, fun c hc => hex_ne_comma (hhex t ht c hc)⟩)]
  dsimp only
  have hmap : (tokens.filter (fun t => !(grease_table.contains t))).map
      (fun t => (str_to_dec (String.mk t)).toList) =
      ((tokens.filter (fun t => !(grease_table.contains t))).map
        (fun t => (toString (hexVal t)).toList)).map (fun x => x ++ ['-']) := by
    rw [List.map_map]
    refine List.map_congr_left ?_
    intro t ht
    have ht2 := List.mem_of_mem_filter ht
    rw [Function.comp, str_to_dec_spec t (hhex t ht2)]
    rfl
  rw [hmap, trail_join]

/-! ## Claim theorems -/

/-- Claim C1 (code_bug evidence): on the fully buffered handshake record
`c1buf`, whose extensions block declares length 1, the ClientHello decoder
does not fail with a clean `TruncatedInput`/`LengthMismatch` return code —
it reads a byte outside the 47-byte record buffer (the second byte of the
first extension's type), refuting the claimed bounds safety of the nested
extension levels. -/
theorem C1_oob : decode_packet_v3_handshake 3 3 3 c1buf = Except.error V3Err.oob := by
  decide

set_option maxRecDepth 16384 in
/-- Claim C2 (counterexample): feeding the valid ClientHello wire image
`c2bytes` one byte per chunk does not produce the ParsedHello that feeding
it as a single chunk produces — the single-chunk run decodes a hello, the
byte-at-a-time run fails at the record header and decodes nothing. -/
theorem C2_cex :
    (feed initCfg c2bytes).outcome ≠ none ∧
    (List.foldl feed initCfg (c2bytes.map (fun b => [b]))).outcome = none := by
  constructor
  · decide
  · decide

/-- Claim C2 (amended): for every byte sequence and every partition of it
into an ordered sequence of chunks whose first chunk carries at least the
5 record-header bytes, feeding the chunks in order to a fresh connection
produces exactly the configuration (including the decoded ParsedHello)
produced by feeding all bytes as a single chunk. -/
theorem C2_thm (s : List Nat) (chunks : List (List Nat))
    (hj : chunks.flatten = s) (h5 : 5 ≤ (chunks.headD []).length) :
    List.foldl feed initCfg chunks = feed initCfg s := by
  subst hj
  rcases chunks with _ | ⟨c, cs⟩
  · simp at h5
  have hfc := first_chunk c cs.flatten (by simpa using h5)
  rw [List.foldl_cons, foldl_feed_settled cs (feed initCfg c) hfc.1,
    List.flatten_cons, hfc.2]

/-- Witness for C2: a concrete split after the 5-byte header. -/
theorem C2_w :
    [[22, 3, 1, 0, 1], [7]].flatten = [22, 3, 1, 0, 1, 7] ∧
    List.foldl feed initCfg [[22, 3, 1, 0, 1], [7]] =
      feed initCfg [22, 3, 1, 0, 1, 7] :=
  ⟨rfl, C2_thm [22, 3, 1, 0, 1, 7] [[22, 3, 1, 0, 1], [7]] rfl (by decide)⟩

/-- Claim C3 (counterexample): a first byte of value 20
(change-cipher-spec) on a fresh connection is not classified as SSLv3+
record framing — the connection goes Inert immediately with no record
buffer allocated, contradicting the claim that 20 leads to record
buffering. -/
theorem C3_cex :
    (feed initCfg [20, 3, 1, 0, 5]).state = SState.goaway ∧
    (feed initCfg [20, 3, 1, 0, 5]).buf = none := by
  decide

/-- Claim C3 (amended): in the AwaitingRecord state only a first byte of
22 selects SSLv3+ record framing and 128 SSLv2 framing; every other first
byte — including 20 and 23, which the dispatch accepts only from the
unreachable `STATE_READING` — makes the connection Inert at once with the
configuration otherwise untouched (zero bytes buffered). -/
theorem C3_thm :
    (∀ b (rest : List Nat), b ≠ 22 → b ≠ 128 →
      feed initCfg (b :: rest) = { initCfg with state := .goaway }) ∧
    (∀ rest : List Nat, 4 ≤ rest.length →
      (feed initCfg (22 :: rest)).hello_version = 3) ∧
    (∀ rest : List Nat, 4 ≤ rest.length → rest.getD 1 0 = 1 →
      (feed initCfg (128 :: rest)).hello_version = 2) := by
  refine ⟨?_, ?_, ?_⟩
  · intro b rest h1 h2
    rw [feed_not_goaway initCfg (by decide),
      decode_bucket_start_other initCfg rfl b h1 h2 rest,
      if_pos (by norm_num)]
  · intro rest h
    rcases rest with _ | ⟨a, rest⟩
    · simp at h
    rcases rest with _ | ⟨b, rest⟩
    · simp at h
    rcases rest with _ | ⟨c, rest⟩
    · simp at h
    rcases rest with _ | ⟨d, rest⟩
    · simp at h
    rw [feed_not_goaway initCfg (by decide),
      decode_bucket_start22 initCfg rfl, v3header_init, feedW_hello]
    by_cases hc : c * 256 + d = 0 ∨ 16384 < c * 256 + d
    · rw [if_pos hc, hdrStep_error]
    · rw [if_neg hc, hdrStep_ok, bufferStep_hello]
  · intro rest h ht
    rcases rest with _ | ⟨a, rest⟩
    · simp at h
    rcases rest with _ | ⟨b, rest⟩
    · simp at h
    rcases rest with _ | ⟨c, rest⟩
    · simp at h
    rcases rest with _ | ⟨d, rest⟩
    · simp at h
    have hb : b = 1 := by simpa using ht
    subst hb
    rw [feed_not_goaway initCfg (by decide),
      decode_bucket_start128 initCfg rfl, v2header_init, feedW_hello]
    by_cases hc : (a + (SIZE_MOD - 3)) % SIZE_MOD = 0 ∨
        16384 < (a + (SIZE_MOD - 3)) % SIZE_MOD
    · rw [if_pos hc, hdrStep_error]
      by_cases hv : c = 0 ∧ d = 2
      · rw [if_pos hv]
      · rw [if_neg hv]
    · rw [if_neg hc, hdrStep_ok, bufferStep_hello]
      by_cases hv : c = 0 ∧ d = 2
      · rw [if_pos hv]
      · rw [if_neg hv]

/-- Witness for C3 at first bytes 0, 22 and 128. -/
theorem C3_w :
    feed initCfg [0] = { initCfg with state := SState.goaway } ∧
    (feed initCfg [22, 3, 1, 0, 5]).hello_version = 3 ∧
    (feed initCfg [128, 37, 1, 3, 1]).hello_version = 2 :=
  ⟨C3_thm.1 0 [] (by decide) (by decide),
   C3_thm.2.1 [3, 1, 0, 5] (by decide),
   C3_thm.2.2 [37, 1, 3, 1] (by decide) (by decide)⟩

set_option maxRecDepth 16384 in
/-- Claim C4 (counterexample): the normalisation loop's fixed buffers make
the original claim false on decoder-produced token lists.  25 four-character
suite tokens comma-join to 124 characters and overflow the `char ste2[100]`
`strcpy` — undefined behavior, modelled `none` — where the claim promises
their hyphen-joined decimals; and when every token is GREASE (a hello
offering only the GREASE suite 0a0a) the final chop writes one byte before
the output buffer, again undefined behavior, while the unbounded transform
(the claim's predicted output) is the empty string. -/
theorem C4_cex :
    sslhaf_normalize_post
      (String.mk (joinSep ',' (List.replicate 25 ['c','0','2','b']))) = none ∧
    sslhaf_normalize_post (String.mk (joinSep ',' [['0','a','0','a']])) = none ∧
    sslhaf_normalize (String.mk (joinSep ',' [['0','a','0','a']])) = "" := by
  refine ⟨by decide, ?_, ?_⟩
  · unfold sslhaf_normalize_post
    rw [show (String.mk (joinSep ',' [['0','a','0','a']])).toList =
      joinSep ',' [['0','a','0','a']] from rfl]
    rw [if_neg (by decide)]
    rw [strtok_joinSep [['0','a','0','a']] (by decide)]
    decide
  · exact (sslhaf_normalize_spec [['0','a','0','a']]
      (by decide) (by decide)).trans (by decide)

/-- Claim C4 (amended): through the fixed-size buffers of
`sslhaf_post_request`, normalising a comma-joined list of nonempty
lowercase-hex tokens of at most 6 characters succeeds and yields exactly
the non-GREASE tokens, each converted to its unsigned decimal
representation, joined with hyphens, in their original relative order —
provided the input list fits the 100-byte `strcpy` buffer, at least one
token survives the GREASE filter, and the converted output fits the
100-byte output buffer. -/
theorem C4_thm (tokens : List (List Char))
    (hne : ∀ t ∈ tokens, t ≠ [])
    (hhex : ∀ t ∈ tokens, ∀ c ∈ t, isHexLower c = true)
    (hlen : ∀ t ∈ tokens, t.length ≤ 6)
    (hin : (joinSep ',' tokens).length ≤ 99)
    (hkept : tokens.filter (fun t => !(grease_table.contains t)) ≠ [])
    (hout : ((((tokens.filter (fun t => !(grease_table.contains t))).map
        (fun t => (toString (hexVal t)).toList)).map
        (fun x => x ++ ['-'])).flatten).length ≤ 99) :
    sslhaf_normalize_post (String.mk (joinSep ',' tokens)) =
      some (String.mk (joinSep '-'
        ((tokens.filter (fun t => !(grease_table.contains t))).map
          (fun t => (toString (hexVal t)).toList)))) := by
  unfold sslhaf_normalize_post
  rw [show (String.mk (joinSep ',' tokens)).toList = joinSep ',' tokens from rfl]
  rw [if_neg (by omega)]
  rw [strtok_joinSep tokens
    (fun t ht => ⟨hne t ht, fun c hc => hex_ne_comma (hhex t ht c hc)⟩)]
  rw [post_strcat_spec _ (fun t ht =>
    ⟨hhex t (List.mem_of_mem_filter ht), hlen t (List.mem_of_mem_filter ht)⟩)]
  have hmne : (tokens.filter (fun t => !(grease_table.contains t))).map
      (fun t => (toString (hexVal t)).toList) ≠ [] := by
    simpa using hkept
  simp only []
  rw [if_neg (by omega)]
  rw [if_neg (fun h0 => hyphen_flatten_ne_nil _ hmne (List.length_eq_zero.mp h0))]
  rw [trail_join]

/-- Witness for C4: one GREASE token among two ordinary ones, well within
the buffer bounds. -/
theorem C4_w :
    sslhaf_normalize_post (String.mk (joinSep ','
      [['0','a','0','a'], ['0','0','0','4'], ['0','1','0','0','8','0']])) =
      some "4-65664" :=
  (C4_thm [['0','a','0','a'], ['0','0','0','4'], ['0','1','0','0','8','0']]
    (by decide) (by decide) (by decide) (by decide) (by decide) (by decide)).trans
    (by decide)

/-- Claim C5 (code_bug evidence): when the supported-groups or
EC-point-formats list is absent (`none`, i.e. the extension was never seen
and the `cfg` field is still NULL), the publication code does not produce
an empty value — it `strcpy`s from a null pointer (no value, modelled
`none`); and a present-but-empty EC-point-formats list is published as
`"0"`, not as an empty value. -/
theorem C5_model :
    publish_curves none = none ∧
    publish_ec_point none = none ∧
    publish_ec_point (some "") = some "0" ∧
    publish_ec_point (some "") ≠ some "" := by
  decide

/-- Claim C6: for a fully buffered SSLv2 body whose declared cipher-spec
length fits the buffer, the decoder succeeds with exactly
`cipherSpecLength / 3` suites, each 3-byte triplet rendered with the
leading-zero-suppression rule, comma-joined in encounter order, with
`thandshake` the hello version and `tprotocol` the dotted version pair. -/
theorem C6_thm (buf : List Nat) (high low : Nat)
    (h6 : 6 ≤ buf.length)
    (hcs : buf.getD 0 0 * 256 + buf.getD 1 0 ≤ buf.length - 6) :
    ∃ r, decode_packet_v2 2 high low buf = Except.ok r ∧
      r.slen = (buf.getD 0 0 * 256 + buf.getD 1 0) / 3 ∧
      r.tsuites = commaSep ((List.range ((buf.getD 0 0 * 256 + buf.getD 1 0) / 3)).map
        (fun k => renderTripletSpec (buf.getD (6 + 3 * k) 0)
          (buf.getD (6 + 3 * k + 1) 0) (buf.getD (6 + 3 * k + 2) 0))) ∧
      r.thandshake = "2" ∧
      r.tprotocol = toString high ++ "." ++ toString low := by
  unfold decode_packet_v2
  rw [if_neg (by omega), if_neg (by omega)]
  refine ⟨_, rfl, rfl, ?_, rfl, rfl⟩
  rw [v2triplets_eq_map]

/-- Witness for C6: the Google-bot-like SSLv2 hello decodes to the tokens
`04,010080,05,0a` with `thandshake = "2"` and `tprotocol = "3.1"`. -/
theorem C6_w :
    (6 ≤ googleBuf.length ∧
      googleBuf.getD 0 0 * 256 + googleBuf.getD 1 0 ≤ googleBuf.length - 6) ∧
    (decode_packet_v2 2 3 1 googleBuf).toOption.map V2Result.tsuites =
      some "04,010080,05,0a" ∧
    (decode_packet_v2 2 3 1 googleBuf).toOption.map V2Result.thandshake = some "2" ∧
    (decode_packet_v2 2 3 1 googleBuf).toOption.map V2Result.tprotocol = some "3.1" := by
  refine ⟨⟨by decide, by decide⟩, ?_⟩
  obtain ⟨r, hr, hs, hts, hth, htp⟩ := C6_thm googleBuf 3 1 (by decide) (by decide)
  rw [hr]
  simp only [Except.toOption, Option.map]
  refine ⟨?_, ?_, ?_⟩
  · rw [hts]; decide
  · rw [hth]
  · rw [htp]; rfl

/-- Claim C7: a fresh SSLv3+ record header is accepted exactly when its
declared length satisfies `0 < len ≤ 16384`: any other declared length
makes the connection Inert with no record buffer ever allocated (`buf`
stays `none`), while a valid length allocates the buffer and enters
BufferingRecord with `buf_to_go` equal to the declared length. -/
theorem C7_thm :
    (∀ vh vl b1 b2 (rest : List Nat),
      (b1 * 256 + b2 = 0 ∨ 16384 < b1 * 256 + b2) →
      feed initCfg (22 :: vh :: vl :: b1 :: b2 :: rest) =
        { initCfg with
          state := .goaway, buf_protocol := 22, hello_version := 3,
          protocol_high := vh, protocol_low := vl }) ∧
    (∀ vh vl b1 b2,
      0 < b1 * 256 + b2 → b1 * 256 + b2 ≤ 16384 →
      feed initCfg [22, vh, vl, b1, b2] =
        { initCfg with
          state := .buffer, buf_protocol := 22, hello_version := 3,
          protocol_high := vh, protocol_low := vl,
          buf := some [], buf_to_go := b1 * 256 + b2 }) := by
  constructor
  · intro vh vl b1 b2 rest h
    have hd : decode_bucket initCfg (22 :: vh :: vl :: b1 :: b2 :: rest) =
        (-1, { initCfg with
               buf_protocol := 22, hello_version := 3,
               protocol_high := vh, protocol_low := vl }) := by
      rw [decode_bucket_start22 initCfg rfl, v3header_init, if_pos h, hdrStep_error]
    rw [feed_not_goaway initCfg (by decide), hd, if_pos (by norm_num)]
  · intro vh vl b1 b2 h1 h2
    have hd : decode_bucket initCfg [22, vh, vl, b1, b2] =
        (1, { initCfg with
              state := .buffer, buf_protocol := 22, hello_version := 3,
              protocol_high := vh, protocol_low := vl,
              buf := some [], buf_to_go := b1 * 256 + b2 }) := by
      rw [decode_bucket_start22 initCfg rfl, v3header_init, if_neg (by omega),
        hdrStep_ok]
      simp only [bufferStep]
      rw [if_neg (by simp only [List.length_nil]; omega)]
      simp
    rw [feed_not_goaway initCfg (by decide), hd, if_neg (by norm_num)]

/-- Witness for C7: lengths 16385 and 0 are rejected without a buffer;
length 5 is accepted and buffered. -/
theorem C7_w :
    feed initCfg [22, 3, 1, 64, 1] =
      { initCfg with
        state := SState.goaway, buf_protocol := 22, hello_version := 3,
        protocol_high := 3, protocol_low := 1 } ∧
    feed initCfg [22, 3, 1, 0, 0] =
      { initCfg with
        state := SState.goaway, buf_protocol := 22, hello_version := 3,
        protocol_high := 3, protocol_low := 1 } ∧
    feed initCfg [22, 3, 1, 0, 5] =
      { initCfg with
        state := SState.buffer, buf_protocol := 22, hello_version := 3,
        protocol_high := 3, protocol_low := 1,
        buf := some [], buf_to_go := 5 } :=
  ⟨C7_thm.1 3 1 64 1 [] (by decide),
   C7_thm.1 3 1 0 0 [] (by decide),
   C7_thm.2 3 1 0 5 (by decide) (by decide)⟩

/-- Claim C8: the record-header version bytes are stored only when no
version is stored yet (`protocol_high = 0`), and every successfully
parsed ClientHello carries `tprotocol` built from the 2-byte version
inside the handshake body (offsets 4 and 5), never from the record
layer. -/
theorem C8_thm :
    (∀ (cfg : Cfg) (b : Nat) (rest : List Nat), cfg.protocol_high ≠ 0 →
      (hdrCfg (v3header cfg b rest)).protocol_high = cfg.protocol_high ∧
      (hdrCfg (v3header cfg b rest)).protocol_low = cfg.protocol_low) ∧
    (∀ (cfg : Cfg) (b : Nat) (rest : List Nat),
      cfg.protocol_high = 0 → 4 ≤ rest.length →
      (hdrCfg (v3header cfg b rest)).protocol_high = rest.getD 0 0 ∧
      (hdrCfg (v3header cfg b rest)).protocol_low = rest.getD 1 0) ∧
    (∀ (hv ph pl : Nat) (buf : List Nat) (hello : V3Hello),
      decode_packet_v3_handshake hv ph pl buf = .ok (some hello) →
      hello.protocol_high = buf.getD 4 0 ∧ hello.protocol_low = buf.getD 5 0 ∧
      hello.tprotocol = toString (buf.getD 4 0) ++ "." ++ toString (buf.getD 5 0)) := by
  refine ⟨?_, ?_, fun hv ph pl buf hello h => decode_v3_fields hv ph pl buf hello h⟩
  · intro cfg b rest hne
    unfold v3header
    dsimp only
    split
    · exact ⟨rfl, rfl⟩
    · simp only [if_neg hne]
      split
      · exact ⟨rfl, rfl⟩
      · exact ⟨rfl, rfl⟩
  · intro cfg b rest h0 h4
    unfold v3header
    dsimp only
    rw [if_neg (by omega)]
    simp only [if_pos h0]
    split
    · exact ⟨rfl, rfl⟩
    · exact ⟨rfl, rfl⟩

/-- Witness for C8: a connection with version 3.1 already stored keeps it
across a 3.3 record header, and a record with outer version 3.1 but inner
version 3.3 publishes `tprotocol = "3.3"`. -/
theorem C8_w :
    (({ initCfg with protocol_high := 3, protocol_low := 1 } : Cfg).protocol_high ≠ 0 ∧
      (hdrCfg (v3header { initCfg with protocol_high := 3, protocol_low := 1 }
        22 [3, 3, 0, 45])).protocol_high = 3) ∧
    (decode_packet_v3_handshake 3 3 1 c8buf).toOption.join.map V3Hello.tprotocol =
      some "3.3" := by
  refine ⟨⟨by decide, ?_⟩, ?_⟩
  · exact ((C8_thm.1 _ 22 [3, 3, 0, 45] (by decide)).1).trans rfl
  · obtain ⟨hello, hh⟩ : ∃ hello,
        decode_packet_v3_handshake 3 3 1 c8buf = .ok (some hello) := ⟨_, rfl⟩
    rw [hh]
    simp only [Except.toOption, Option.join, Option.map, Option.bind, id]
    rw [(C8_thm.2.2 3 3 1 c8buf hello hh).2.2]
    rfl

/-- Claim C9: along any run from a fresh connection the phase only makes
the transitions AwaitingRecord to BufferingRecord, AwaitingRecord to
Inert, BufferingRecord to Inert, or stays put; and an Inert connection is
left completely unchanged by further input (no byte is inspected). -/
theorem C9_thm :
    (∀ (chunks : List (List Nat)) (c : List Nat),
      transOK (run chunks).state (feed (run chunks) c).state) ∧
    (∀ (cfg : Cfg) (c : List Nat), cfg.state = SState.goaway → feed cfg c = cfg) :=
  ⟨fun chunks c => feed_step (run chunks) (run_not_reading chunks) c,
   fun cfg c h => feed_goaway cfg h c⟩

/-- Witness for C9: an Inert connection ignores a further chunk. -/
theorem C9_w :
    feed { initCfg with state := SState.goaway } [1, 2, 3] =
      { initCfg with state := SState.goaway } :=
  C9_thm.2 { initCfg with state := SState.goaway } [1, 2, 3] rfl

/-- Claim C10: on the SSLv2 path the declared length is the byte after
the 0x80 marker minus 3 in `apr_size_t` arithmetic, so a length byte of 3
or less is always rejected (values below 3 wrap far past the 16384
ceiling, 3 yields zero) and an accepted length byte `lb` always buffers
`lb - 3 ∈ [1, 252]` bytes — the 16384 ceiling is never the binding limit
on this path. -/
theorem C10_thm :
    (∀ lb vh vl (more : List Nat), lb < 256 → lb ≤ 3 →
      feed initCfg (128 :: lb :: 1 :: vh :: vl :: more) =
        { initCfg with
          state := .goaway, hello_version := 2,
          protocol_high := if vh = 0 ∧ vl = 2 then vl else vh,
          protocol_low := if vh = 0 ∧ vl = 2 then vh else vl }) ∧
    (∀ lb vh vl, lb < 256 → 4 ≤ lb →
      (feed initCfg [128, lb, 1, vh, vl] =
        { initCfg with
          state := .buffer, hello_version := 2,
          protocol_high := if vh = 0 ∧ vl = 2 then vl else vh,
          protocol_low := if vh = 0 ∧ vl = 2 then vh else vl,
          buf := some [], buf_to_go := lb - 3 }) ∧
      1 ≤ lb - 3 ∧ lb - 3 ≤ 252) := by
  have hsz : ∀ lb : Nat, lb < 256 → 4 ≤ lb →
      (lb + (SIZE_MOD - 3)) % SIZE_MOD = lb - 3 := by
    intro lb h1 h2
    simp only [SIZE_MOD]
    omega
  have hrej : ∀ lb : Nat, lb < 256 → lb ≤ 3 →
      ((lb + (SIZE_MOD - 3)) % SIZE_MOD = 0 ∨
        16384 < (lb + (SIZE_MOD - 3)) % SIZE_MOD) := by
    intro lb h1 h2
    simp only [SIZE_MOD]
    omega
  constructor
  · intro lb vh vl more h1 h2
    have hd : decode_bucket initCfg (128 :: lb :: 1 :: vh :: vl :: more) =
        (-1,
          if vh = 0 ∧ vl = 2 then
            { initCfg with hello_version := 2, protocol_high := vl, protocol_low := vh }
          else
            { initCfg with hello_version := 2, protocol_high := vh, protocol_low := vl }) := by
      rw [decode_bucket_start128 initCfg rfl, v2header_init,
        if_pos (hrej lb h1 h2), hdrStep_error]
    rw [feed_not_goaway initCfg (by decide), hd, if_pos (by norm_num)]
    by_cases hv : vh = 0 ∧ vl = 2
    · simp only [if_pos hv]
    · simp only [if_neg hv]
  · intro lb vh vl h1 h2
    refine ⟨?_, by omega, by omega⟩
    have hd : decode_bucket initCfg [128, lb, 1, vh, vl] =
        (1,
          { (if vh = 0 ∧ vl = 2 then
              { initCfg with hello_version := 2, protocol_high := vl, protocol_low := vh }
             else
              { initCfg with hello_version := 2, protocol_high := vh, protocol_low := vl }) with
            state := .buffer, buf := some [], buf_to_go := lb - 3 }) := by
      rw [decode_bucket_start128 initCfg rfl, v2header_init]
      rw [hsz lb h1 h2]
      rw [if_neg (by omega), hdrStep_ok]
      simp only [bufferStep]
      rw [if_neg (by simp only [List.length_nil]; omega)]
      simp
    rw [feed_not_goaway initCfg (by decide), hd, if_neg (by norm_num)]
    by_cases hv : vh = 0 ∧ vl = 2
    · simp only [if_pos hv]
    · simp only [if_neg hv]

/-- Witness for C10: length byte 2 is rejected; length byte 255 buffers
252 bytes. -/
theorem C10_w :
    feed initCfg [128, 2, 1, 3, 1] =
      { initCfg with
        state := SState.goaway, hello_version := 2,
        protocol_high := 3, protocol_low := 1 } ∧
    (feed initCfg [128, 255, 1, 3, 1] =
      { initCfg with
        state := SState.buffer, hello_version := 2,
        protocol_high := 3, protocol_low := 1,
        buf := some [], buf_to_go := 252 } ∧
     1 ≤ 255 - 3 ∧ 255 - 3 ≤ 252) :=
  ⟨C10_thm.1 2 3 1 [] (by decide) (by decide),
   C10_thm.2 255 3 1 (by decide) (by decide)⟩
